import Mathlib

/-!
Verification of the anonymisation validator of
`agentic-privacy-monitor/backend/privacy_validator/anonymisation_validator.py`.

The Python module is shallowly embedded below:
* a pandas `DataFrame` becomes a `DataFrame` structure (named columns, rows of cells);
* a cell is a `Val` (number, string, or missing — NaN/None are the `null` case);
* float arithmetic is modelled over `ℚ` where the source computes rational values and
  over `ℝ` where it is genuinely transcendental (entropy, the Freedman-Diaconis
  `n ** (-1/3)` factor, Pearson correlation);
* raising exceptions becomes `Except PyErr`; the `PyErr` constructors record the kind
  of exception and the raise site (`KeyError`, `ValueError`, `UnboundLocalError`);
* `df.groupby(qi_cols, dropna=False)` becomes grouping of rows by their list of QI
  cell values, missing values being an ordinary key constituent (`Val.null`); pandas
  sorts the group keys, but every aggregate computed below (min / mean / max /
  histograms / counts) is invariant under the order of the groups, so groups are kept
  in the canonical order produced by `List.dedup` of the row keys.
-/

namespace Priv

/-- A cell value of a tabular dataset: a number, a string, or missing (NaN / None). -/
inductive Val where
  | num (q : ℚ)
  | str (s : String)
  | null
deriving DecidableEq, Repr

/-- A dataset: named columns and rows of cells.  Row `r` holds the value of the
`i`-th column at position `i`; out-of-range access yields `Val.null`. -/
structure DataFrame where
  cols : List String
  rows : List (List Val)
deriving DecidableEq, Repr

/-- Python exceptions raised by the validator, tagged with the offending name. -/
inductive PyErr where
  | keyError (name : String)
  | valueError (msg : String)
  | unboundLocal (name : String)
deriving DecidableEq, Repr

deriving instance DecidableEq for Except

/-- Position of a name in a header list (first occurrence). -/
def headerIndex : List String → String → Option Nat
  | [], _ => none
  | a :: t, c => if a = c then some 0 else (headerIndex t c).map fun i => i + 1

/-- Position of a column name in the header, `none` when the column is absent. -/
def colIndex (df : DataFrame) (c : String) : Option Nat := headerIndex df.cols c

/-- Cell of row `r` at column position `i`. -/
def cell (r : List Val) (i : Nat) : Val := r.getD i Val.null

/-- Column `c` of the dataset as the list of its cells (`df[c]`), or `none`
when the column is absent (pandas raises `KeyError`). -/
def getColumn (df : DataFrame) (c : String) : Option (List Val) :=
  (colIndex df c).map fun i => df.rows.map fun r => cell r i

/-- First requested column that is absent from the dataset, if any. -/
def firstMissing (df : DataFrame) (cs : List String) : Option String :=
  cs.find? fun c => (colIndex df c).isNone

/-- Resolve a list of column names to their positions, raising `KeyError` on the
first absent one (as `df.groupby(cols)` / `df.merge(..., on=cols)` do). -/
def requireCols (df : DataFrame) (cs : List String) : Except PyErr (List Nat) :=
  match firstMissing df cs with
  | some c => .error (.keyError c)
  | none => .ok (cs.filterMap (colIndex df))

/-- Number of occurrences of `a` in `l` (`List.count` pinned to propositional
equality, keeping all multiplicity reasoning independent of `BEq` instances). -/
def cnt {α : Type} [DecidableEq α] (a : α) (l : List α) : Nat :=
  l.countP fun b => decide (b = a)

/-- Ascending insertion into a sorted list (structural recursion, so that concrete
reports evaluate inside the kernel). -/
def insertAsc {α : Type} [LinearOrder α] (a : α) : List α → List α
  | [] => [a]
  | b :: t => if a ≤ b then a :: b :: t else b :: insertAsc a t

/-- Ascending insertion sort (`np.sort` / `sort_index()` ordering). -/
def sortAsc {α : Type} [LinearOrder α] (l : List α) : List α :=
  l.foldr insertAsc []

/-- Key of a row under a list of (resolved) QI column positions: the list of the
row's cells at those positions.  This is the `groupby` key tuple; `Val.null` is a
first-class key constituent (`dropna=False`). -/
def rowKey (idxs : List Nat) (r : List Val) : List Val := idxs.map (cell r)

/-- Group keys of all rows, in row order. -/
def keysOf (df : DataFrame) (idxs : List Nat) : List (List Val) :=
  df.rows.map (rowKey idxs)

/-- Equivalence-class sizes: for each distinct key (first-occurrence order), the
number of rows carrying it (`df.groupby(qi).size()`). -/
def groupSizes (keys : List (List Val)) : List Nat :=
  keys.dedup.map fun k => cnt k keys

/-- Values of one column gathered per equivalence class: for each distinct key,
the list of that column's cells over the rows of the class
(`df.groupby(qi_cols, dropna=False)[col]`). -/
def groupVals (keys : List (List Val)) (vals : List Val) : List (List Val) :=
  keys.dedup.map fun k => ((keys.zip vals).filter fun p => p.1 = k).map Prod.snd

/-- Sort a list of naturals ascending (`sort_index()`/`np.unique` ordering). -/
def sortNat (l : List Nat) : List Nat := sortAsc l

/-- Report of `AnonymisationValidator.k_anonymity`. -/
structure KAnonymityReport where
  k_min : Nat
  k_avg : ℚ
  eq_class_size_hist : List (Nat × Nat)
deriving DecidableEq, Repr

/-- Embedding of `AnonymisationValidator.k_anonymity`: groups rows by the QI
columns and reports the minimum and mean equivalence-class size together with the
histogram size ↦ number of classes of that size (ascending by size). -/
def k_anonymity (df : DataFrame) (qi_cols : List String) :
    Except PyErr KAnonymityReport := do
  let idxs ← requireCols df qi_cols
  let sizes := groupSizes (keysOf df idxs)
  let kMin : Nat := match sizes with | [] => 0 | a :: t => t.foldl min a
  let kAvg : ℚ := if sizes.length = 0 then 0 else (sizes.sum : ℚ) / sizes.length
  let hist := (sortNat sizes.dedup).map fun s => (s, cnt s sizes)
  .ok ⟨kMin, kAvg, hist⟩

/-- Result of `simulate_linkage_attack`. -/
structure LinkageAttackResult where
  unique : Nat
  multiple : Nat
  none : Nat
  flagged : List (List Val)
  records_tested : Nat
  reid_probability : ℚ
deriving DecidableEq, Repr

/-- Number of dataset rows whose QI key equals the QI key of one auxiliary row
(the per-auxiliary-row match count of the left merge). -/
def matchCount (df : DataFrame) (dIdxs aIdxs : List Nat) (arow : List Val) : Nat :=
  df.rows.countP fun r => rowKey dIdxs r = rowKey aIdxs arow

/-- Embedding of `simulate_linkage_attack`: left-merges the auxiliary rows with the
anonymised dataset on the QI columns and classifies each auxiliary row by its match
count (exactly one / more than one / zero); `flagged` lists the auxiliary rows with
a unique match, `reid_probability = unique / records_tested` (0 when no rows). -/
def simulate_linkage_attack (anonymised_df aux_df : DataFrame)
    (qi_cols : List String) : Except PyErr LinkageAttackResult := do
  let aIdxs ← requireCols aux_df qi_cols
  let dIdxs ← requireCols anonymised_df qi_cols
  let counts := aux_df.rows.map (matchCount anonymised_df dIdxs aIdxs)
  let uniq := counts.countP fun c => c = 1
  let mult := counts.countP fun c => 1 < c
  let nonMatched := counts.countP fun c => c = 0
  let flagged := ((aux_df.rows.zip counts).filter fun p => p.2 = 1).map Prod.fst
  let n := aux_df.rows.length
  let reid : ℚ := if n ≠ 0 then (uniq : ℚ) / n else 0
  .ok ⟨uniq, mult, nonMatched, flagged, n, reid⟩

/-- Sort rationals ascending (`np.sort` order, used by percentiles and `np.unique`). -/
def sortQ (l : List ℚ) : List ℚ := sortAsc l

/-- Numeric non-missing values of a column, in row order (`s.dropna()` on a numeric
series; on a numeric-dtype column every non-missing cell is a number). -/
def numericVals (vs : List Val) : List ℚ :=
  vs.filterMap fun v => match v with | .num q => some q | _ => none

/-- Non-missing values of a column (`s.dropna()` on a categorical series). -/
def nonNull (vs : List Val) : List Val := vs.filter fun v => v ≠ Val.null

/-- Numeric-dtype test (`pd.api.types.is_numeric_dtype(s)` / `s.dtype.kind in "if"`).
The dtype of a CSV-loaded pandas column is numeric exactly when the column is
nonempty and none of its values is a string (missing cells become NaN, which keeps
the dtype numeric). -/
def isNumericCol (vs : List Val) : Bool :=
  !vs.isEmpty && vs.all fun v => match v with | .str _ => false | _ => true

/-- Minimum of a list, `0` for the empty list (the source always guards emptiness
with an explicit `if len(...) else 0` — the `0` default is never observable). -/
def listMin {α : Type} [LinearOrder α] [Zero α] (l : List α) : α :=
  match l with | [] => 0 | a :: t => t.foldl min a

/-- Maximum of a list, `0` for the empty list (same guard as `listMin`). -/
def listMax {α : Type} [LinearOrder α] [Zero α] (l : List α) : α :=
  match l with | [] => 0 | a :: t => t.foldl max a

/-- Mean of a list of values in a field, `0` for the empty list (`.mean()`). -/
def listMean {α : Type} [Field α] (l : List α) : α :=
  if l.length = 0 then 0 else l.sum / l.length

/-- Normalisation step `p / p.sum() if p.sum() > 0 else p` shared by the TVD helper
and both histogram probability computations. -/
def normalizeIfPos (p : List ℚ) : List ℚ :=
  if 0 < p.sum then p.map fun a => a / p.sum else p

/-- Embedding of `_total_variation_distance`: both inputs are normalised when their
sum is positive, then the distance is half the sum of absolute differences. -/
def total_variation_distance (p q : List ℚ) : ℚ :=
  ((normalizeIfPos p).zipWith (fun a b => |a - b|) (normalizeIfPos q)).sum / 2

/-- Embedding of `np.quantile(x, q)` (default linear interpolation), `q` in `[0,1]`:
with `a` the sorted sample of size `n`, the value at fractional position `q*(n-1)`. -/
def quantile (x : List ℚ) (q : ℚ) : ℚ :=
  let a := sortQ x
  let pos : ℚ := q * ((a.length : ℚ) - 1)
  let i : Nat := (Int.floor pos).toNat
  let lo := a.getD i 0
  lo + (pos - (i : ℚ)) * (a.getD (i + 1) lo - lo)

/-- Embedding of `np.percentile(x, q)`, `q` in `[0,100]`. -/
def percentile (x : List ℚ) (q : ℚ) : ℚ := quantile x (q / 100)

/-- Embedding of `np.unique(np.quantile(x, np.linspace(0, 1, numeric_bins + 1)))`:
the de-duplicated, sorted quantile cut points used by the "quantile" binning method. -/
def quantileBins (x : List ℚ) (numeric_bins : Nat) : List ℚ :=
  (sortQ ((List.range (numeric_bins + 1)).map fun i =>
    quantile x ((i : ℚ) / (numeric_bins : ℚ)))).dedup

/-- Embedding of `np.histogram_bin_edges(x, bins=k)` once `min`/`max` are known:
`k+1` equally spaced edges; numpy widens a degenerate range by `0.5` on each side. -/
def linspaceEdges (xmin xmax : ℚ) (k : Nat) : List ℚ :=
  let a := if xmin = xmax then xmin - 1/2 else xmin
  let b := if xmin = xmax then xmax + 1/2 else xmax
  (List.range (k + 1)).map fun i => a + (i : ℚ) * (b - a) / (k : ℚ)

/-- Embedding of `np.histogram(xs, bins=edges)` counts: bin `i` is half-open
`[e_i, e_{i+1})`, the last bin is closed, values outside the range are dropped. -/
def histogramCounts (edges : List ℚ) (xs : List ℚ) : List Nat :=
  let k := edges.length - 1
  (List.range k).map fun i =>
    xs.countP fun v =>
      decide (edges.getD i 0 ≤ v) &&
        (if i = k - 1 then decide (v ≤ edges.getD (i + 1) 0)
         else decide (v < edges.getD (i + 1) 0))

/-- Embedding of `scipy.stats.wasserstein_distance` on two nonempty unweighted
samples: the integral of the absolute difference of the empirical CDFs, summed over
the consecutive gaps of the merged sorted sample. -/
def wassersteinDistance (u v : List ℚ) : ℚ :=
  let a := sortQ (u ++ v)
  ((List.range (a.length - 1)).map fun i =>
    |((u.countP fun w => w ≤ a.getD i 0 : Nat) : ℚ) / (u.length : ℚ) -
      ((v.countP fun w => w ≤ a.getD i 0 : Nat) : ℚ) / (v.length : ℚ)| *
      (a.getD (i + 1) 0 - a.getD i 0)).sum

/-- Embedding of `_emd_distance`: scipy rejects an empty sample with `ValueError`. -/
def emd_distance (p_values q_values : List ℚ) : Except PyErr ℚ :=
  if p_values.isEmpty || q_values.isEmpty then
    .error (.valueError "Distribution cannot be empty")
  else .ok (wassersteinDistance p_values q_values)

/-- Column access `df[c]` that raises `KeyError` when the column is absent. -/
def getCol! (df : DataFrame) (c : String) : Except PyErr (List Val) :=
  match getColumn df c with
  | some v => .ok v
  | none => .error (.keyError c)

/-- Report of `AnonymisationValidator.l_diversity`.  The four entropy fields are
populated only by the "entropy" method (dataclass defaults `None`). -/
structure LDiversityReport where
  method : String
  l_min : ℚ
  l_avg : ℚ
  entropy_min : Option ℝ := none
  entropy_avg : Option ℝ := none
  entropy_effective_min : Option ℝ := none
  entropy_effective_avg : Option ℝ := none

/-- Embedding of `_safe_entropy`: Shannon entropy (base 2) of a probability
vector, zero entries dropped, `0.0` for an empty vector. -/
noncomputable def safe_entropy (p : List ℚ) : ℝ :=
  let pos := p.filter fun a => 0 < a
  if pos.isEmpty then 0
  else -((pos.map fun a : ℚ => (a : ℝ) * Real.logb 2 (a : ℝ)).sum)

/-- Per-class sensitive-value distribution
(`value_counts(normalize=True, dropna=False)`): for each distinct value (missing
included as one value), its count divided by the class size. -/
def classProbs (vs : List Val) : List ℚ :=
  vs.dedup.map fun v => (cnt v vs : ℚ) / (vs.length : ℚ)

/-- Embedding of `AnonymisationValidator.l_diversity`: per equivalence class either
the distinct count of sensitive values (`nunique(dropna=False)`) or the Shannon
entropy of their distribution; aggregates are min / mean over classes, an empty
grouping yielding `0.0`.  Unknown method names raise `ValueError`. -/
noncomputable def l_diversity (df : DataFrame) (qi_cols : List String)
    (sensitive_col : String) (method : String := "distinct") :
    Except PyErr LDiversityReport := do
  let idxs ← requireCols df qi_cols
  let svals ← getCol! df sensitive_col
  let groups := groupVals (keysOf df idxs) svals
  if method = "distinct" then
    let lvals : List ℚ := groups.map fun g => (g.dedup.length : ℚ)
    .ok { method := method, l_min := listMin lvals, l_avg := listMean lvals }
  else if method = "entropy" then
    let entropies : List ℝ := groups.map fun g => safe_entropy (classProbs g)
    let eMin := listMin entropies
    let eAvg := listMean entropies
    let distinctL : List ℚ := groups.map fun g => (g.dedup.length : ℚ)
    .ok { method := method,
          l_min := listMin distinctL, l_avg := listMean distinctL,
          entropy_min := some eMin, entropy_avg := some eAvg,
          entropy_effective_min := some ((2 : ℝ) ^ eMin),
          entropy_effective_avg := some ((2 : ℝ) ^ eAvg) }
  else .error (.valueError "method must be distinct or entropy")

/-- Report of `AnonymisationValidator.t_closeness` (dataclass `TClosenessReport`). -/
structure TClosenessReport where
  t_max : ℚ
  t_avg : ℚ
  bins : Option (List ℚ) := none
  method : String := "tvd"
deriving DecidableEq, Repr

/-- Per-class categorical distribution reindexed onto the global category set
(`value_counts(normalize=True).reindex(cats, fill_value=0)`): counts of the class's
non-missing values over its non-missing total, `0` for absent categories (and the
all-zero vector when the class has no non-missing value). -/
def catProbs (cats : List Val) (subs : List Val) : List ℚ :=
  cats.map fun c => (cnt c (nonNull subs) : ℚ) / ((nonNull subs).length : ℚ)

/-- Freedman-Diaconis-like bin edges of the source's fd branch, for a nonempty
numeric sample: width `h = 2*iqr*n**(-1/3)` (falling back to
`range / max(1, numeric_bins)` when `iqr` is zero, and to `1` when that is zero),
`bin_count = max(1, ceil(range / h))`, then `np.histogram_bin_edges`. -/
noncomputable def fdEdges (x : List ℚ) (numeric_bins : Nat) : List ℚ :=
  let xmax := listMax x
  let xmin := listMin x
  let iqr := percentile x 75 - percentile x 25
  let h0 : ℝ :=
    if 0 < iqr then 2 * (iqr : ℝ) * (x.length : ℝ) ^ (-(1 : ℝ) / 3)
    else (((xmax - xmin) / (max 1 numeric_bins : ℚ) : ℚ) : ℝ)
  let h : ℝ := if h0 = 0 then 1 else h0
  let binCount : Nat := max 1 (Int.ceil (((xmax - xmin : ℚ) : ℝ) / h)).toNat
  linspaceEdges xmin xmax binCount

/-- Histogram probabilities over given edges
(`counts / counts.sum() if counts.sum() > 0 else counts`). -/
def binnedProbs (edges : List ℚ) (xs : List ℚ) : List ℚ :=
  normalizeIfPos ((histogramCounts edges xs).map fun c : Nat => (c : ℚ))

/-- The `dist_func` of the numeric fd branch: EMD on the raw values when
`t_method == "emd"`, otherwise TVD of the per-class histogram against the global
histogram over the shared edges. -/
def fdDist (edges : List ℚ) (x : List ℚ) (t_method : String)
    (subs : List Val) : Except PyErr ℚ :=
  if t_method = "emd" then emd_distance (numericVals subs) x
  else .ok (total_variation_distance (binnedProbs edges (numericVals subs))
    (binnedProbs edges x))

/-- The `dist_func` of the categorical branch: TVD of the class's reindexed
frequency vector against the global one. -/
def catDist (cats : List Val) (globalProbs : List ℚ)
    (subs : List Val) : Except PyErr ℚ :=
  .ok (total_variation_distance (catProbs cats subs) globalProbs)

/-- Bin edges and distance function selected by `t_closeness` from the sensitive
column; `none` in the second component means the source never assigned
`dist_func` (the quantile fall-through), so using it raises `UnboundLocalError`. -/
noncomputable def tSetup (s : List Val) (numeric_bins : Nat)
    (binning_method t_method : String) :
    Option (List ℚ) × Option (List Val → Except PyErr ℚ) :=
  if isNumericCol s then
    let x := numericVals s
    if x.isEmpty then (none, some fun _ => .ok 0)
    else if binning_method = "quantile" then
      (some (quantileBins x numeric_bins), none)
    else
      (some (fdEdges x numeric_bins),
        some (fdDist (fdEdges x numeric_bins) x t_method))
  else
    (none, some (catDist ((nonNull s).dedup) (catProbs ((nonNull s).dedup) s)))

/-- Embedding of `AnonymisationValidator.t_closeness`.  Faithful control flow:
* `df[sensitive_col]` first (`KeyError` when absent);
* numeric dtype: an all-missing column gives constant distance `0.0`; the
  "quantile" binning method computes the de-duplicated quantile cut points but
  never defines `dist_func` (the fall-through bug of the source); every other
  binning method name takes the fd path (`fdEdges` / `fdDist`);
* categorical dtype: per-class frequency vectors over the observed categories,
  compared by TVD (`catDist`);
* then `groupby(qi_cols)` (`KeyError` on a missing QI column, raised before the
  `dist_func` name lookup, which raises `UnboundLocalError` when `dist_func` was
  never assigned), and the per-class distances are aggregated by max / mean, an
  empty grouping yielding `0.0`.
The `np.isnan(x_max)` guard of the source is unreachable here: `x` is nonempty in
that branch and `ℚ` has no NaN. -/
noncomputable def t_closeness (df : DataFrame) (qi_cols : List String)
    (sensitive_col : String) (numeric_bins : Nat := 10)
    (binning_method : String := "fd") (t_method : String := "tvd") :
    Except PyErr TClosenessReport := do
  let s ← getCol! df sensitive_col
  let setup := tSetup s numeric_bins binning_method t_method
  let idxs ← requireCols df qi_cols
  let groups := groupVals (keysOf df idxs) s
  let f ← match setup.2 with
    | some f => Except.ok f
    | none => Except.error (.unboundLocal "dist_func")
  let tvals ← groups.mapM f
  .ok ⟨listMax tvals, listMean tvals, setup.1, t_method⟩

/-- Result of `AnonymisationValidator.suggest_thresholds`. -/
structure SuggestedThresholds where
  k : Nat
  l : Nat
  t : ℚ
  reid_probability : ℚ
deriving DecidableEq, Repr

/-- Embedding of `AnonymisationValidator.suggest_thresholds`: pure function of the
dataset size and the sensitive column (`s.nunique()` drops missing values; the
dtype test is the numeric-kind check).  `qi_cols` is accepted and unused, as in the
source. -/
def suggest_thresholds (df : DataFrame) (qi_cols : List String)
    (sensitive_col : String) : Except PyErr SuggestedThresholds := do
  let _ := qi_cols
  let nRows := df.rows.length
  let kSuggested : Nat := if nRows < 1000 then 5 else if nRows < 10000 then 10 else 20
  let s ← getCol! df sensitive_col
  let lSuggested : Nat := if (nonNull s).dedup.length ≤ 10 then 2 else 3
  let tSuggested : ℚ := if isNumericCol s then 1/5 else 3/10
  let reidSuggested : ℚ := if 1000 < nRows then 1/20 else 1/10
  .ok ⟨kSuggested, lSuggested, tSuggested, reidSuggested⟩

/-- Values of one equivalence class for a given key: the column's cells over the
rows whose QI key equals `k`. -/
def classVals (keys : List (List Val)) (vals : List Val) (k : List Val) : List Val :=
  ((keys.zip vals).filter fun p => p.1 = k).map Prod.snd

/-- Modal value of a class's sensitive distribution (`dist.idxmax()`): the first
distinct value attaining the maximal count (ties broken by the canonical distinct
order, which the reported aggregates never depend on). -/
def dominantVal (vs : List Val) : Val :=
  let m := listMax (vs.dedup.map fun v => cnt v vs)
  (vs.dedup.find? fun v => cnt v vs = m).getD Val.null

/-- Embedding of `pd.crosstab(df[qi], s)`: contingency counts over the distinct
non-missing value pairs (crosstab drops rows where either side is missing). -/
def crosstab (qvals svals : List Val) : List (List Nat) :=
  let pairs := (qvals.zip svals).filter fun p => p.1 ≠ Val.null && p.2 ≠ Val.null
  let qcats := (pairs.map Prod.fst).dedup
  let scats := (pairs.map Prod.snd).dedup
  qcats.map fun a => scats.map fun b => cnt (a, b) pairs

/-- Chi-square statistic of a contingency table with expected counts
`row_sum * col_sum / total` (`chi2_contingency(..., correction=False)`). -/
def chi2Stat (table : List (List Nat)) : ℚ :=
  let rowSums : List Nat := table.map fun r => r.sum
  let colSums : List Nat := (List.range ((table.headD []).length)).map fun j =>
    (table.map fun r => r.getD j 0).sum
  let total : ℚ := (rowSums.sum : ℚ)
  ((List.range table.length).map fun i =>
    ((List.range ((table.headD []).length)).map fun j =>
      let o : ℚ := (((table.getD i []).getD j 0 : ℕ) : ℚ)
      let e : ℚ := ((rowSums.getD i 0 : ℕ) : ℚ) * ((colSums.getD j 0 : ℕ) : ℚ) / total
      (o - e) ^ 2 / e).sum).sum

/-- Survival function of the chi-square distribution with `k` degrees of freedom
(the `p` returned by `chi2_contingency`), as the upper tail of its density.  Only
its value at dof `0` is short-circuited by scipy (handled at the call site); the
validator stores it without inspecting it. -/
noncomputable def chiSqPValue (x : ℝ) (k : Nat) : ℝ :=
  ∫ t in Set.Ioi x,
    t ^ ((k : ℝ) / 2 - 1) * Real.exp (-t / 2) /
      (2 ^ ((k : ℝ) / 2) * Real.Gamma ((k : ℝ) / 2))

/-- Pearson correlation of paired samples (`df[[qi, s]].corr().iloc[0, 1]`), with
`none` for the NaN results (no pairs, or a zero variance): pandas propagates NaN,
which then fails the `abs(corr) > 0.5` test. -/
noncomputable def pearsonCorr (pairs : List (ℚ × ℚ)) : Option ℝ :=
  if pairs.length = 0 then none
  else
    let n : ℚ := pairs.length
    let mx := (pairs.map Prod.fst).sum / n
    let my := (pairs.map Prod.snd).sum / n
    let sxx := (pairs.map fun p => (p.1 - mx) ^ 2).sum
    let syy := (pairs.map fun p => (p.2 - my) ^ 2).sum
    let sxy := (pairs.map fun p => (p.1 - mx) * (p.2 - my)).sum
    if sxx * syy = 0 then none
    else some ((sxy : ℝ) / Real.sqrt ((sxx * syy : ℚ) : ℝ))

/-- Entry of `behaviour_patterns["qi_sensitive_correlation"]`: either a Pearson
correlation (numeric QI vs numeric sensitive) or a chi-square association
(categorical pair).  The reported dictionaries are modelled as tagged values. -/
inductive CorrEntry where
  | pearson (qi : String) (sensitive : String) (correlation : ℝ)
  | association (qi : String) (sensitive : String) (cramers_v : ℝ)
      (chi2 : ℚ) (p_value : ℝ)

/-- Entry of `behaviour_patterns["sensitive_skew"]`. -/
structure SkewEntry where
  qi_values : List Val
  dominant_sensitive : Val
  frequency : ℚ

/-- The `behaviour_patterns` section of the full report.  `correlation_error`
models the `except` branch around the correlation block; no exception of the
embedded computations can reach it, so it is always `none` here. -/
structure BehaviourPatterns where
  rare_combinations : List (List Val × Nat)
  sensitive_skew : List SkewEntry
  qi_sensitive_correlation : List CorrEntry
  correlation_error : Option String := none

/-- Echo of the parameters of `full_report` (`report["params"]`). -/
structure Params where
  qi : List String
  sensitive : String
  k_required : Option Nat
  l_required : Option ℚ
  l_method : String
  t_required : Option ℚ
  numeric_bins : Nat
  reid_required : Option ℚ
  dominance_threshold : ℚ
  rare_threshold : Nat
  binning_method : String
  t_method : String
deriving DecidableEq, Repr

/-- The `data_summary` section: row count, column count, per-column missing rate
(for the zero-row dataset pandas yields NaN rates; `ℚ` renders them as `0`). -/
structure DataSummary where
  n_rows : Nat
  n_cols : Nat
  missing_rates : List (String × ℚ)
deriving DecidableEq, Repr

/-- Risk flags (`report["risk_flags"]`): the source appends formatted strings; the
embedding keeps the interpolated data as tagged values. -/
inductive RiskFlag where
  | kBelow (k_min : Nat) (required : Nat)
  | lEntropyBelow (effective : ℝ) (required : ℚ)
  | lDistinctBelow (l_min : ℚ) (required : ℚ)
  | tAbove (t_max : ℚ) (required : ℚ)
  | reidAbove (probability : ℚ) (required : ℚ)

/-- Repair suggestions, paired one-to-one with the risk flags. -/
inductive RepairSuggestion where
  | generaliseQi (qi : List String)
  | increaseEntropy
  | increaseDiversity
  | rebinSensitive
  | suppressUnique
deriving DecidableEq, Repr

/-- The assembled report of `AnonymisationValidator.full_report`.  A metric whose
computation raised is `none` (the null-placeholder sub-dictionary of the source). -/
structure FullReport where
  schema_version : String
  params : Params
  suggested_thresholds : SuggestedThresholds
  data_summary : DataSummary
  k_anonymity : Option KAnonymityReport
  l_diversity : Option LDiversityReport
  t_closeness : Option TClosenessReport
  attack_simulation : Option LinkageAttackResult
  risk_flags : List RiskFlag
  repair_suggestions : List RepairSuggestion
  behaviour_patterns : BehaviourPatterns

/-- Embedding of `AnonymisationValidator.full_report`.  Faithful control flow:
* `suggest_thresholds` runs first — an absent sensitive column raises `KeyError`
  here, before any metric computation;
* each of the three metric computations is wrapped in `try/except`; a failure
  leaves the null placeholder (`none`) in the report and execution continues;
* the risk-flag section then reads the local variables `krep`/`lrep`/`trep`
  whenever the corresponding required threshold was supplied — when that metric
  had failed, its local was never bound and `UnboundLocalError` is raised,
  aborting the whole call (the partial-failure bug of the source);
* the linkage attack runs only when an external dataset is supplied and
  propagates `KeyError` on missing QI columns;
* the behaviour-pattern section regroups the rows (`groupby` at the end of the
  source) and so raises `KeyError` on a missing QI column — the earlier metric
  failures did not abort the call, the grouping here does.
The debug-log file write of the source (itself wrapped in `try/except: pass`)
is I/O with no effect on the report and is not modelled. -/
noncomputable def full_report (df : DataFrame) (qi_cols : List String)
    (sensitive_col : String) (k_required : Option Nat := none)
    (l_required : Option ℚ := none) (l_method : String := "distinct")
    (t_required : Option ℚ := none) (reid_required : Option ℚ := none)
    (numeric_bins : Nat := 15) (external_df : Option DataFrame := none)
    (dominance_threshold : ℚ := 9 / 10) (rare_threshold : Nat := 1)
    (binning_method : String := "fd") (t_method : String := "tvd") :
    Except PyErr FullReport := do
  let suggested ← suggest_thresholds df qi_cols sensitive_col
  let params : Params :=
    ⟨qi_cols, sensitive_col, k_required, l_required, l_method, t_required,
      numeric_bins, reid_required, dominance_threshold, rare_threshold,
      binning_method, t_method⟩
  let dataSummary : DataSummary :=
    ⟨df.rows.length, df.cols.length,
      df.cols.map fun c =>
        (c, ((cnt Val.null ((getColumn df c).getD []) : ℚ) /
          (df.rows.length : ℚ)))⟩
  let krep := (k_anonymity df qi_cols).toOption
  let lrep := (l_diversity df qi_cols sensitive_col l_method).toOption
  let trep :=
    (t_closeness df qi_cols sensitive_col numeric_bins binning_method
      t_method).toOption
  let fk : List RiskFlag × List RepairSuggestion ←
    match k_required with
    | none => Except.ok ([], [])
    | some req =>
      match krep with
      | none => Except.error (.unboundLocal "krep")
      | some kr =>
        if kr.k_min < req then
          Except.ok ([RiskFlag.kBelow kr.k_min req], [RepairSuggestion.generaliseQi qi_cols])
        else Except.ok ([], [])
  let fl : List RiskFlag × List RepairSuggestion ←
    match l_required with
    | none => Except.ok ([], [])
    | some req =>
      if l_method = "entropy" then
        match lrep with
        | none => Except.error (.unboundLocal "lrep")
        | some lr =>
          if lr.entropy_effective_min.getD 0 < (req : ℝ) then
            Except.ok ([RiskFlag.lEntropyBelow (lr.entropy_effective_min.getD 0) req],
              [RepairSuggestion.increaseEntropy])
          else Except.ok ([], [])
      else
        match lrep with
        | none => Except.error (.unboundLocal "lrep")
        | some lr =>
          if lr.l_min < req then
            Except.ok ([RiskFlag.lDistinctBelow lr.l_min req], [RepairSuggestion.increaseDiversity])
          else Except.ok ([], [])
  let ft : List RiskFlag × List RepairSuggestion ←
    match t_required with
    | none => Except.ok ([], [])
    | some req =>
      match trep with
      | none => Except.error (.unboundLocal "trep")
      | some tr =>
        if req < tr.t_max then
          Except.ok ([RiskFlag.tAbove tr.t_max req], [RepairSuggestion.rebinSensitive])
        else Except.ok ([], [])
  let attackPart : Option LinkageAttackResult ×
      (List RiskFlag × List RepairSuggestion) ←
    match external_df with
    | none => Except.ok (none, ([], []))
    | some ext => do
      let r ← simulate_linkage_attack df ext qi_cols
      match reid_required with
      | none => Except.ok (some r, ([], []))
      | some req =>
        if req < r.reid_probability then
          Except.ok (some r,
            ([RiskFlag.reidAbove r.reid_probability req],
              [RepairSuggestion.suppressUnique]))
        else Except.ok (some r, ([], []))
  let flags := fk.1 ++ fl.1 ++ ft.1 ++ attackPart.2.1
  let repairs := fk.2 ++ fl.2 ++ ft.2 ++ attackPart.2.2
  let idxs ← requireCols df qi_cols
  let svals ← getCol! df sensitive_col
  let keys := keysOf df idxs
  let rare :=
    (keys.dedup.map fun k => (k, cnt k keys)).filter fun p =>
      p.2 ≤ rare_threshold
  let skew : List SkewEntry :=
    keys.dedup.filterMap fun k =>
      let g := classVals keys svals k
      let dist := classProbs g
      if dist ≠ [] ∧ dominance_threshold < listMax dist then
        some ⟨k, dominantVal g, listMax dist⟩
      else none
  let corr : List CorrEntry :=
    if isNumericCol svals then
      qi_cols.filterMap fun qi =>
        let qv := (getColumn df qi).getD []
        if isNumericCol qv then
          let pairs := (qv.zip svals).filterMap fun p =>
            match p with
            | (.num a, .num b) => some (a, b)
            | _ => none
          match pearsonCorr pairs with
          | none => none
          | some r =>
            if 1 / 2 < |r| then some (.pearson qi sensitive_col r) else none
        else none
    else
      let n := df.rows.length
      qi_cols.filterMap fun qi =>
        let qv := (getColumn df qi).getD []
        let table := crosstab qv svals
        if table.length = 0 ∨ (table.headD []).length = 0 ∨ n = 0 then none
        else
          let r := table.length
          let c := (table.headD []).length
          let dof := (r - 1) * (c - 1)
          let chi2 : ℚ := if dof = 0 then 0 else chi2Stat table
          let p : ℝ := if dof = 0 then 1 else chiSqPValue ((chi2 : ℚ) : ℝ) dof
          let mrc := min (r - 1) (c - 1)
          let denom : ℚ := (n : ℚ) * (if 0 < mrc then (mrc : ℚ) else 1)
          let v : ℝ :=
            if 0 < denom then Real.sqrt (((chi2 / denom : ℚ) : ℝ)) else 0
          if (1 / 5 : ℝ) < v then
            some (.association qi sensitive_col v chi2 p)
          else none
  let behaviour : BehaviourPatterns := ⟨rare, skew, corr, none⟩
  .ok ⟨"1.0.0", params, suggested, dataSummary, krep, lrep, trep,
    attackPart.1, flags, repairs, behaviour⟩

/-! ### Counting and sorting helper lemmas -/

/-- The pinned count agrees with `List.count` at the `DecidableEq`-induced `BEq`. -/
theorem cnt_eq_count {α : Type} [DecidableEq α] (a : α) (l : List α) :
    cnt a l = l.count a := rfl

/-- Insertion keeps the elements (up to permutation). -/
theorem insertAsc_perm {α : Type} [LinearOrder α] (a : α) (l : List α) :
    List.Perm (insertAsc a l) (a :: l) := by
  induction l with
  | nil => simp [insertAsc]
  | cons b t ih =>
    unfold insertAsc
    by_cases h : a ≤ b
    · simp [h]
    · simp only [h, if_false]
      exact (ih.cons b).trans (List.Perm.swap a b t)

/-- Insertion sort is a permutation of its input. -/
theorem sortAsc_perm {α : Type} [LinearOrder α] (l : List α) :
    List.Perm (sortAsc l) l := by
  induction l with
  | nil => simp [sortAsc]
  | cons a t ih =>
    unfold sortAsc
    exact (insertAsc_perm a (sortAsc t)).trans (ih.cons a)

/-- Summing each distinct element's multiplicity recovers the length. -/
theorem sum_count_dedup {α : Type} [DecidableEq α] (l : List α) :
    (l.dedup.map fun k => cnt k l).sum = l.length := by
  simp only [cnt_eq_count]
  have h2 := List.sum_toFinset (fun k => l.count k) l.nodup_dedup
  have h3 : l.dedup.toFinset = l.toFinset := by ext a; simp
  rw [h3] at h2
  rw [← h2]
  exact List.sum_toFinset_count_eq_length l

/-- Summing `element * multiplicity` over the distinct elements recovers the sum. -/
theorem sum_mul_count_dedup (l : List Nat) :
    (l.dedup.map fun s => s * cnt s l).sum = l.sum := by
  simp only [cnt_eq_count]
  have h1 := Finset.sum_list_count l
  have h2 := List.sum_toFinset (fun m => l.count m • m) l.nodup_dedup
  have h3 : l.dedup.toFinset = l.toFinset := by ext a; simp
  rw [h3] at h2
  have h4 : (l.dedup.map fun s => s * l.count s) =
      l.dedup.map fun m => l.count m • m := by
    simp [smul_eq_mul, Nat.mul_comm]
  rw [h4, ← h2, ← h1]

/-- Every natural is exactly one of: equal to one, greater than one, zero. -/
theorem countP_three_way (l : List Nat) :
    (l.countP fun c => c = 1) + (l.countP fun c => 1 < c) +
      (l.countP fun c => c = 0) = l.length := by
  induction l with
  | nil => simp
  | cons a t ih =>
    by_cases h0 : a = 0
    · subst h0
      simp [List.countP_cons]
      omega
    · by_cases h1 : a = 1
      · subst h1
        simp [List.countP_cons]
        omega
      · have hgt : 1 < a := by omega
        simp [List.countP_cons, h0, h1, hgt]
        omega

/-! ### C8: the k-anonymity size histogram partitions the rows -/

/-- C8: for every dataset and QI grouping, the size histogram returned by
`k_anonymity` satisfies `∑ (class size × number of classes of that size) =
total row count` — the equivalence classes partition the rows. -/
theorem C8_size_histogram_partition (df : DataFrame) (qi_cols : List String)
    (rep : KAnonymityReport) (h : k_anonymity df qi_cols = .ok rep) :
    (rep.eq_class_size_hist.map fun p => p.1 * p.2).sum = df.rows.length := by
  unfold k_anonymity at h
  cases hr : requireCols df qi_cols with
  | error e => rw [hr] at h; exact absurd h (by simp [Bind.bind, Except.bind])
  | ok idxs =>
    rw [hr] at h
    simp only [Bind.bind, Except.bind, Except.ok.injEq] at h
    subst h
    simp only
    have hcomp : ((sortNat (groupSizes (keysOf df idxs)).dedup).map
        fun s => (s, cnt s (groupSizes (keysOf df idxs)))).map
          (fun p => p.1 * p.2) =
        (sortNat (groupSizes (keysOf df idxs)).dedup).map
          fun s => s * cnt s (groupSizes (keysOf df idxs)) := by
      simp [List.map_map, Function.comp]
    rw [hcomp]
    have hperm : List.Perm (sortNat (groupSizes (keysOf df idxs)).dedup)
        (groupSizes (keysOf df idxs)).dedup := sortAsc_perm _
    rw [(hperm.map _).sum_eq]
    rw [sum_mul_count_dedup]
    unfold groupSizes
    exact (sum_count_dedup (keysOf df idxs)).trans (List.length_map _ _)

/-- Witness for C8 on a concrete dataset: two classes of sizes 2 and 1. -/
theorem C8_size_histogram_partition_witness :
    (((KAnonymityReport.mk 1 (3/2) [(1, 1), (2, 1)]).eq_class_size_hist.map
        fun p => p.1 * p.2).sum) =
      (DataFrame.mk ["q", "s"]
        [[Val.str "a", Val.num 1], [Val.str "a", Val.num 2],
          [Val.str "b", Val.num 3]]).rows.length :=
  C8_size_histogram_partition
    (DataFrame.mk ["q", "s"]
      [[Val.str "a", Val.num 1], [Val.str "a", Val.num 2],
        [Val.str "b", Val.num 3]])
    ["q"] (KAnonymityReport.mk 1 (3/2) [(1, 1), (2, 1)])
    (by simp +decide [k_anonymity, requireCols, firstMissing, colIndex, headerIndex,
      keysOf, groupSizes, rowKey, cell, cnt, sortNat, sortAsc, insertAsc, Bind.bind,
      Except.bind, List.filterMap_cons, List.dedup_cons_of_mem,
      List.dedup_cons_of_not_mem])

/-! ### C5: linkage-attack count invariants -/

/-- C5: `simulate_linkage_attack` classifies every auxiliary row exactly once
(`unique + multiple + none = records_tested`), tests exactly the auxiliary rows,
and reports `reid_probability = unique / records_tested` when any rows were
tested, `0.0` for an empty auxiliary dataset — a value always within `[0, 1]`. -/
theorem C5_linkage_attack_counts (anonymised_df aux_df : DataFrame)
    (qi_cols : List String) (r : LinkageAttackResult)
    (h : simulate_linkage_attack anonymised_df aux_df qi_cols = .ok r) :
    r.unique + r.multiple + r.none = r.records_tested ∧
    r.records_tested = aux_df.rows.length ∧
    (aux_df.rows.length ≠ 0 →
      r.reid_probability = (r.unique : ℚ) / (r.records_tested : ℚ)) ∧
    (aux_df.rows.length = 0 → r.reid_probability = 0) ∧
    0 ≤ r.reid_probability ∧ r.reid_probability ≤ 1 := by
  unfold simulate_linkage_attack at h
  cases ha : requireCols aux_df qi_cols with
  | error e => rw [ha] at h; exact absurd h (by simp [Bind.bind, Except.bind])
  | ok aIdxs =>
    rw [ha] at h
    cases hd : requireCols anonymised_df qi_cols with
    | error e => rw [hd] at h; exact absurd h (by simp [Bind.bind, Except.bind])
    | ok dIdxs =>
      rw [hd] at h
      simp only [Bind.bind, Except.bind, Except.ok.injEq] at h
      subst h
      simp only
      refine ⟨?_, trivial, ?_, ?_, ?_, ?_⟩
      · exact (countP_three_way _).trans (List.length_map _ _)
      · intro hne
        rw [if_pos hne]
      · intro h0
        rw [if_neg (by simp [h0])]
      · by_cases hn : aux_df.rows.length = 0
        · rw [if_neg (by simp [hn])]
        · rw [if_pos hn]
          positivity
      · by_cases hn : aux_df.rows.length = 0
        · rw [if_neg (by simp [hn])]
          norm_num
        · rw [if_pos hn]
          rw [div_le_one (by positivity)]
          have hle : ((aux_df.rows.map
              (matchCount anonymised_df dIdxs aIdxs)).countP fun c => c = 1) ≤
              aux_df.rows.length :=
            (List.countP_le_length _).trans (le_of_eq (List.length_map _ _))
          exact_mod_cast hle

/-- Witness for C5: three auxiliary rows against a three-row dataset — one
unique match, one double match, one unmatched row. -/
theorem C5_linkage_attack_counts_witness :
    (LinkageAttackResult.mk 1 1 1 [[Val.str "b"]] 3 (1/3)).unique +
        (LinkageAttackResult.mk 1 1 1 [[Val.str "b"]] 3 (1/3)).multiple +
        (LinkageAttackResult.mk 1 1 1 [[Val.str "b"]] 3 (1/3)).none =
        (LinkageAttackResult.mk 1 1 1 [[Val.str "b"]] 3 (1/3)).records_tested ∧
    (LinkageAttackResult.mk 1 1 1 [[Val.str "b"]] 3 (1/3)).records_tested =
        (DataFrame.mk ["q"] [[Val.str "a"], [Val.str "b"], [Val.str "c"]]).rows.length ∧
    ((DataFrame.mk ["q"] [[Val.str "a"], [Val.str "b"], [Val.str "c"]]).rows.length ≠ 0 →
      (LinkageAttackResult.mk 1 1 1 [[Val.str "b"]] 3 (1/3)).reid_probability =
        ((LinkageAttackResult.mk 1 1 1 [[Val.str "b"]] 3 (1/3)).unique : ℚ) /
        ((LinkageAttackResult.mk 1 1 1 [[Val.str "b"]] 3 (1/3)).records_tested : ℚ)) ∧
    ((DataFrame.mk ["q"] [[Val.str "a"], [Val.str "b"], [Val.str "c"]]).rows.length = 0 →
      (LinkageAttackResult.mk 1 1 1 [[Val.str "b"]] 3 (1/3)).reid_probability = 0) ∧
    0 ≤ (LinkageAttackResult.mk 1 1 1 [[Val.str "b"]] 3 (1/3)).reid_probability ∧
    (LinkageAttackResult.mk 1 1 1 [[Val.str "b"]] 3 (1/3)).reid_probability ≤ 1 :=
  C5_linkage_attack_counts
    (DataFrame.mk ["q", "s"]
      [[Val.str "a", Val.num 1], [Val.str "a", Val.num 2], [Val.str "b", Val.num 3]])
    (DataFrame.mk ["q"] [[Val.str "a"], [Val.str "b"], [Val.str "c"]])
    ["q"] (LinkageAttackResult.mk 1 1 1 [[Val.str "b"]] 3 (1/3))
    (by simp +decide [simulate_linkage_attack, requireCols, firstMissing, colIndex,
      headerIndex, matchCount, rowKey, cell, Bind.bind, Except.bind,
      List.filterMap_cons])

/-! ### C10: entropy method on the zero-row dataset -/

/-- C10: on any zero-row dataset, the entropy method reports
`entropy_min = entropy_avg = 0.0` yet `entropy_effective_min =
entropy_effective_avg = 2 ** 0 = 1.0` — an effective diversity of one sensitive
value even though no rows exist — while `l_min = l_avg = 0.0`. -/
theorem C10_empty_entropy_report (df : DataFrame) (qi_cols : List String)
    (sensitive_col : String) (rep : LDiversityReport)
    (h : l_diversity df qi_cols sensitive_col "entropy" = .ok rep)
    (h0 : df.rows = []) :
    rep.entropy_min = some 0 ∧ rep.entropy_avg = some 0 ∧
    rep.entropy_effective_min = some 1 ∧ rep.entropy_effective_avg = some 1 ∧
    rep.l_min = 0 ∧ rep.l_avg = 0 := by
  unfold l_diversity at h
  cases hr : requireCols df qi_cols with
  | error e => rw [hr] at h; exact absurd h (by simp [Bind.bind, Except.bind])
  | ok idxs =>
    rw [hr] at h
    cases hc : getCol! df sensitive_col with
    | error e => rw [hc] at h; exact absurd h (by simp [Bind.bind, Except.bind])
    | ok svals =>
      rw [hc] at h
      simp only [Bind.bind, Except.bind] at h
      rw [keysOf, h0] at h
      simp +decide [groupVals, listMin, listMean, Except.ok.injEq] at h
      subst h
      simp [Real.rpow_zero]

/-- Witness for C10 at a concrete zero-row dataset with two columns. -/
theorem C10_empty_entropy_report_witness :
    (LDiversityReport.mk "entropy" 0 0 (some 0) (some 0) (some 1)
        (some 1)).entropy_min = some 0 ∧
    (LDiversityReport.mk "entropy" 0 0 (some 0) (some 0) (some 1)
        (some 1)).entropy_avg = some 0 ∧
    (LDiversityReport.mk "entropy" 0 0 (some 0) (some 0) (some 1)
        (some 1)).entropy_effective_min = some 1 ∧
    (LDiversityReport.mk "entropy" 0 0 (some 0) (some 0) (some 1)
        (some 1)).entropy_effective_avg = some 1 ∧
    (LDiversityReport.mk "entropy" 0 0 (some 0) (some 0) (some 1)
        (some 1)).l_min = 0 ∧
    (LDiversityReport.mk "entropy" 0 0 (some 0) (some 0) (some 1)
        (some 1)).l_avg = 0 :=
  C10_empty_entropy_report (DataFrame.mk ["q", "s"] []) ["q"] "s"
    (LDiversityReport.mk "entropy" 0 0 (some 0) (some 0) (some 1) (some 1))
    (by simp +decide [l_diversity, requireCols, firstMissing, colIndex, headerIndex,
      getCol!, getColumn, keysOf, groupVals, listMin, listMean, Bind.bind,
      Except.bind, safe_entropy, Real.rpow_zero]) rfl

/-! ### C4: when bin edges are reported -/

/-- C4 counterexample: on a numeric sensitive column with `t_method = "emd"`
(Freedman-Diaconis binning), `t_closeness` still returns the computed bin edges —
the claim that `bin_edges` is absent for the numeric EMD path is false. -/
theorem C4_counterexample_emd_bins_present :
    t_closeness
        (DataFrame.mk ["q", "s"]
          [[Val.str "a", Val.num 5], [Val.str "a", Val.num 5]])
        ["q"] "s" 10 "fd" "emd" =
      .ok ⟨0, 0, some [9/2, 11/2], "emd"⟩ := by
  have hedges : fdEdges [5, 5] 10 = [9/2, 11/2] := by
    unfold fdEdges
    norm_num [percentile, quantile, sortQ, sortAsc, insertAsc, listMax, listMin,
      linspaceEdges, List.range_succ]
  have hdist : fdDist [9/2, 11/2] [5, 5] "emd" [Val.num 5, Val.num 5] =
      .ok 0 := by
    norm_num +decide [fdDist, emd_distance, wassersteinDistance, numericVals,
      sortQ, sortAsc, insertAsc, List.range_succ, List.filterMap_cons,
      List.countP_cons, List.countP_nil]
  have hsetup : tSetup [Val.num 5, Val.num 5] 10 "fd" "emd" =
      (some [9/2, 11/2], some (fdDist [9/2, 11/2] [5, 5] "emd")) := by
    rw [tSetup]
    norm_num +decide [isNumericCol, numericVals, hedges, List.filterMap_cons]
  simp +decide [t_closeness, getCol!, getColumn, colIndex, headerIndex,
    requireCols, firstMissing, keysOf, rowKey, cell, groupVals, hsetup, hdist,
    listMax, listMean, Bind.bind, Except.bind, List.mapM, List.mapM.loop,
    Pure.pure, Except.pure]

/-- C4 (amended): whenever `t_closeness` returns a report, its `bins` field is
populated exactly when the sensitive column is numeric with at least one
non-missing value — regardless of `t_method` ("tvd" or "emd"); it is `None` for
categorical sensitive columns and for the all-missing numeric case. -/
theorem C4_bins_iff_numeric_nonmissing (df : DataFrame) (qi_cols : List String)
    (sensitive_col : String) (numeric_bins : Nat)
    (binning_method t_method : String) (rep : TClosenessReport)
    (svals : List Val) (hs : getColumn df sensitive_col = some svals)
    (h : t_closeness df qi_cols sensitive_col numeric_bins binning_method
      t_method = .ok rep) :
    rep.bins ≠ none ↔
      (isNumericCol svals = true ∧ numericVals svals ≠ []) := by
  unfold t_closeness at h
  simp only [getCol!, hs, Bind.bind, Except.bind] at h
  cases hr : requireCols df qi_cols with
  | error e => rw [hr] at h; exact absurd h (by simp)
  | ok idxs =>
    rw [hr] at h
    by_cases hnum : isNumericCol svals
    · by_cases hx : (numericVals svals).isEmpty
      · have hset : tSetup svals numeric_bins binning_method t_method =
            (none, some fun _ => .ok 0) := by
          rw [tSetup]; simp [hnum, hx]
        rw [hset] at h
        simp only at h
        cases hm : (groupVals (keysOf df idxs) svals).mapM
            (fun _ => (Except.ok 0 : Except PyErr ℚ)) with
        | error e => rw [hm] at h; exact absurd h (by simp)
        | ok tvals =>
          rw [hm] at h
          simp only [Except.ok.injEq] at h
          subst h
          simp [hnum, List.isEmpty_iff.mp hx]
      · by_cases hbm : binning_method = "quantile"
        · have hset : tSetup svals numeric_bins binning_method t_method =
              (some (quantileBins (numericVals svals) numeric_bins), none) := by
            rw [tSetup]; simp [hnum, hx, hbm]
          rw [hset] at h
          exact absurd h (by simp)
        · have hset : tSetup svals numeric_bins binning_method t_method =
              (some (fdEdges (numericVals svals) numeric_bins),
                some (fdDist (fdEdges (numericVals svals) numeric_bins)
                  (numericVals svals) t_method)) := by
            rw [tSetup]; simp [hnum, hx, hbm]
          rw [hset] at h
          simp only at h
          cases hm : (groupVals (keysOf df idxs) svals).mapM
              (fdDist (fdEdges (numericVals svals) numeric_bins)
                (numericVals svals) t_method) with
          | error e => rw [hm] at h; exact absurd h (by simp)
          | ok tvals =>
            rw [hm] at h
            simp only [Except.ok.injEq] at h
            subst h
            simp [hnum, hx]
            intro hempty
            rw [hempty] at hx
            exact hx rfl
    · have hset : tSetup svals numeric_bins binning_method t_method =
          (none, some (catDist ((nonNull svals).dedup)
            (catProbs ((nonNull svals).dedup) svals))) := by
        rw [tSetup]; simp [hnum]
      rw [hset] at h
      simp only at h
      cases hm : (groupVals (keysOf df idxs) svals).mapM
          (catDist ((nonNull svals).dedup)
            (catProbs ((nonNull svals).dedup) svals)) with
      | error e => rw [hm] at h; exact absurd h (by simp)
      | ok tvals =>
        rw [hm] at h
        simp only [Except.ok.injEq] at h
        subst h
        simp [hnum]

/-- Witness for the amended C4 on a categorical run: the report succeeds and its
`bins` field is `None`, matching the non-numeric right-hand side. -/
theorem C4_bins_iff_numeric_nonmissing_witness :
    ((TClosenessReport.mk 0 0 none "tvd").bins ≠ none ↔
      (isNumericCol [Val.str "x", Val.str "y"] = true ∧
        numericVals [Val.str "x", Val.str "y"] ≠ [])) :=
  C4_bins_iff_numeric_nonmissing
    (DataFrame.mk ["q", "s"]
      [[Val.str "a", Val.str "x"], [Val.str "a", Val.str "y"]])
    ["q"] "s" 10 "fd" "tvd" (TClosenessReport.mk 0 0 none "tvd")
    [Val.str "x", Val.str "y"]
    (by simp +decide [getColumn, colIndex, headerIndex, cell])
    (by
      have hset : tSetup [Val.str "x", Val.str "y"] 10 "fd" "tvd" =
          (none, some (catDist [Val.str "x", Val.str "y"] [1/2, 1/2])) := by
        rw [tSetup]
        norm_num +decide [isNumericCol, nonNull, catProbs, cnt,
          List.countP_cons, List.countP_nil]
      have hdist1 : catDist [Val.str "x", Val.str "y"] [(2 : ℚ)⁻¹, (2 : ℚ)⁻¹]
          [Val.str "x", Val.str "y"] = .ok 0 := by
        norm_num +decide [catDist, catProbs, nonNull, cnt, List.countP_cons,
          List.countP_nil, total_variation_distance, normalizeIfPos,
          List.zipWith]
      simp +decide [t_closeness, getCol!, getColumn, colIndex, headerIndex,
        requireCols, firstMissing, keysOf, rowKey, cell, groupVals, hset,
        hdist1, listMax, listMean, Bind.bind, Except.bind, List.mapM,
        List.mapM.loop, Pure.pure, Except.pure])

/-! ### C2: the quantile binning path always raises -/

/-- C2: calling `t_closeness` with `binning_method = "quantile"` and
`t_method = "tvd"` on a numeric sensitive column with non-missing values does not
return the quantile-binned TVD report the claim describes: the source computes the
de-duplicated quantile cut points but never assigns `dist_func` in that branch, so
the call raises `UnboundLocalError` at the `groupby(...).apply(dist_func)` site. -/
theorem C2_t_closeness_quantile_crash :
    t_closeness
        (DataFrame.mk ["q", "s"]
          [[Val.str "a", Val.num 1], [Val.str "a", Val.num 2]])
        ["q"] "s" 10 "quantile" "tvd" =
      .error (.unboundLocal "dist_func") := by
  have hset2 : (tSetup [Val.num 1, Val.num 2] 10 "quantile" "tvd").2 = none := by
    rw [tSetup]
    norm_num +decide [isNumericCol, numericVals, List.filterMap_cons]
  simp +decide [t_closeness, getCol!, getColumn, colIndex, headerIndex,
    requireCols, firstMissing, cell, Bind.bind, Except.bind, hset2]

/-! ### C3: where configuration errors surface -/

/-- Error raised by the basic validation block of `anonymisation_validator_cli.py`
(`SystemExit` with the list of missing columns). -/
inductive CliErr where
  | missingData (cols : List String)
  | missingAux (cols : List String)
deriving DecidableEq, Repr

/-- Embedding of the CLI's pre-validation (`anonymisation_validator_cli.py`,
"basic validations"): collect the requested QI / sensitive columns absent from
the dataset and abort before constructing the validator; with an auxiliary
dataset, also require every QI column there. -/
def cli_validate (df : DataFrame) (qi_cols : List String)
    (sensitive_col : String) (external_df : Option DataFrame) :
    Except CliErr Unit :=
  let missing := (qi_cols ++ [sensitive_col]).filter fun c =>
    (colIndex df c).isNone
  if missing = [] then
    match external_df with
    | none => .ok ()
    | some ext =>
      let missingAux := qi_cols.filter fun c => (colIndex ext c).isNone
      if missingAux = [] then .ok () else .error (.missingAux missingAux)
  else .error (.missingData missing)

/-- C3 counterexample: with QI column "q" absent (and the CLI's default
`k_required` supplied), `full_report` does not fail with a configuration error
before metric computation — every metric is attempted (each failing into its null
placeholder) and the call then dies in the risk-flag stage with
`UnboundLocalError` on `krep`, after the metric computations. -/
theorem C3_counterexample_missing_qi_after_metrics :
    full_report (DataFrame.mk ["a", "s"] [[Val.num 1, Val.num 2]])
        ["q"] "s" (some 5) none "distinct" none none 15 none (9/10) 1
        "fd" "tvd" =
      .error (.unboundLocal "krep") := by
  have hsug : suggest_thresholds (DataFrame.mk ["a", "s"] [[Val.num 1, Val.num 2]])
      ["q"] "s" = .ok ⟨5, 2, 1/5, 1/10⟩ := by
    norm_num +decide [suggest_thresholds, getCol!, getColumn, colIndex,
      headerIndex, cell, nonNull, isNumericCol, Bind.bind, Except.bind]
  have hk : k_anonymity (DataFrame.mk ["a", "s"] [[Val.num 1, Val.num 2]])
      ["q"] = .error (.keyError "q") := by
    simp +decide [k_anonymity, requireCols, firstMissing, colIndex, headerIndex,
      Bind.bind, Except.bind]
  simp only [full_report, hsug, hk, Bind.bind, Except.bind, Except.toOption]

/-- C3 (amended): configuration errors are surfaced up front only by the CLI
wrapper and, inside the engine, only for the sensitive column: `cli_validate`
rejects any missing QI / sensitive column (and any auxiliary dataset missing a QI
column) before any computation, and `full_report` raises `KeyError` inside
`suggest_thresholds` — before any metric computation — when the sensitive column
is absent.  (A missing QI column, by contrast, aborts the engine only after the
metric attempts, as the counterexample shows.) -/
theorem C3_config_errors_cli_and_sensitive (df : DataFrame)
    (qi_cols : List String) (sensitive_col : String)
    (external_df : Option DataFrame) (k_required : Option Nat)
    (l_required : Option ℚ) (l_method : String) (t_required : Option ℚ)
    (reid_required : Option ℚ) (numeric_bins : Nat)
    (dominance_threshold : ℚ) (rare_threshold : Nat)
    (binning_method t_method : String) :
    (((qi_cols ++ [sensitive_col]).filter fun c =>
        (colIndex df c).isNone) ≠ [] →
      cli_validate df qi_cols sensitive_col external_df =
        .error (.missingData ((qi_cols ++ [sensitive_col]).filter fun c =>
          (colIndex df c).isNone))) ∧
    (∀ ext, external_df = some ext →
      ((qi_cols ++ [sensitive_col]).filter fun c =>
        (colIndex df c).isNone) = [] →
      (qi_cols.filter fun c => (colIndex ext c).isNone) ≠ [] →
      cli_validate df qi_cols sensitive_col external_df =
        .error (.missingAux (qi_cols.filter fun c =>
          (colIndex ext c).isNone))) ∧
    (colIndex df sensitive_col = none →
      full_report df qi_cols sensitive_col k_required l_required l_method
          t_required reid_required numeric_bins external_df
          dominance_threshold rare_threshold binning_method t_method =
        .error (.keyError sensitive_col)) := by
  refine ⟨?_, ?_, ?_⟩
  · intro hmiss
    simp only [cli_validate]
    rw [if_neg hmiss]
  · intro ext hext hnone hmiss
    subst hext
    simp only [cli_validate]
    rw [if_pos hnone]
    rw [if_neg hmiss]
  · intro hs
    have hsug : suggest_thresholds df qi_cols sensitive_col =
        .error (.keyError sensitive_col) := by
      unfold suggest_thresholds
      simp [getCol!, getColumn, hs, Bind.bind, Except.bind]
    unfold full_report
    simp [hsug, Bind.bind, Except.bind]

/-- Witness for the amended C3: a dataset lacking both the QI and the sensitive
column is rejected by the CLI validation, and the engine raises `KeyError` on
the sensitive column before any metric computation. -/
theorem C3_config_errors_cli_and_sensitive_witness :
    ((((["q"] ++ ["s"]).filter fun c =>
        (colIndex (DataFrame.mk ["a"] [[Val.num 1]]) c).isNone) ≠ []) →
      cli_validate (DataFrame.mk ["a"] [[Val.num 1]]) ["q"] "s" none =
        .error (.missingData ((["q"] ++ ["s"]).filter fun c =>
          (colIndex (DataFrame.mk ["a"] [[Val.num 1]]) c).isNone))) ∧
    (∀ ext, (none : Option DataFrame) = some ext →
      ((["q"] ++ ["s"]).filter fun c =>
        (colIndex (DataFrame.mk ["a"] [[Val.num 1]]) c).isNone) = [] →
      (["q"].filter fun c => (colIndex ext c).isNone) ≠ [] →
      cli_validate (DataFrame.mk ["a"] [[Val.num 1]]) ["q"] "s" none =
        .error (.missingAux (["q"].filter fun c =>
          (colIndex ext c).isNone))) ∧
    (colIndex (DataFrame.mk ["a"] [[Val.num 1]]) "s" = none →
      full_report (DataFrame.mk ["a"] [[Val.num 1]]) ["q"] "s" none none
          "distinct" none none 15 none (9/10) 1 "fd" "tvd" =
        .error (.keyError "s")) :=
  C3_config_errors_cli_and_sensitive (DataFrame.mk ["a"] [[Val.num 1]])
    ["q"] "s" none none none "distinct" none none 15 (9/10) 1 "fd" "tvd"

/-! ### C1: a metric failure with its threshold supplied aborts the report -/

/-- C1: when l-diversity fails (here: an unrecognised method name, caught into
the null placeholder) and `l_required` is supplied, `full_report` does not return
the assembled report with placeholders — it raises `UnboundLocalError` on `lrep`
in the risk-flag section, because the local was never bound.  The same happens
with `krep` / `trep` when `k_required` / `t_required` are supplied and that
metric failed, so a metric failure can prevent emission of the report. -/
theorem C1_full_report_unbound_local :
    full_report
        (DataFrame.mk ["q", "s"]
          [[Val.str "a", Val.num 5], [Val.str "a", Val.num 5]])
        ["q"] "s" none (some 2) "wrong" none none 15 none (9/10) 1
        "fd" "tvd" =
      .error (.unboundLocal "lrep") := by
  have hsug : suggest_thresholds
      (DataFrame.mk ["q", "s"]
        [[Val.str "a", Val.num 5], [Val.str "a", Val.num 5]])
      ["q"] "s" = .ok ⟨5, 2, 1/5, 1/10⟩ := by
    norm_num +decide [suggest_thresholds, getCol!, getColumn, colIndex,
      headerIndex, cell, nonNull, isNumericCol, Bind.bind, Except.bind]
  have hl : l_diversity
      (DataFrame.mk ["q", "s"]
        [[Val.str "a", Val.num 5], [Val.str "a", Val.num 5]])
      ["q"] "s" "wrong" =
      .error (.valueError "method must be distinct or entropy") := by
    simp +decide [l_diversity, requireCols, firstMissing, colIndex, headerIndex,
      getCol!, getColumn, cell, Bind.bind, Except.bind]
  simp only [full_report, hsug, hl, Bind.bind, Except.bind, Except.toOption]
  simp +decide

/-! ### C7: TVD-mode t-closeness values lie in the unit interval -/

/-- Sum of a pointwise quotient. -/
theorem sum_map_div (l : List ℚ) (c : ℚ) :
    (l.map fun a => a / c).sum = l.sum / c := by
  induction l with
  | nil => simp
  | cons a t ih => simp [ih, add_div]

/-- Normalisation keeps entries nonnegative. -/
theorem normalizeIfPos_nonneg (p : List ℚ) (hp : ∀ x ∈ p, 0 ≤ x) :
    ∀ x ∈ normalizeIfPos p, 0 ≤ x := by
  intro x hx
  unfold normalizeIfPos at hx
  by_cases hs : 0 < p.sum
  · rw [if_pos hs] at hx
    obtain ⟨a, ha, rfl⟩ := List.mem_map.mp hx
    exact div_nonneg (hp a ha) (le_of_lt hs)
  · rw [if_neg hs] at hx
    exact hp x hx

/-- Normalisation of a nonnegative vector sums to at most 1 (exactly 1 when the
sum was positive, 0 when the vector was all zero). -/
theorem normalizeIfPos_sum_le (p : List ℚ) (hp : ∀ x ∈ p, 0 ≤ x) :
    (normalizeIfPos p).sum ≤ 1 := by
  unfold normalizeIfPos
  by_cases hs : 0 < p.sum
  · rw [if_pos hs, sum_map_div, div_self (ne_of_gt hs)]
  · rw [if_neg hs]
    exact le_trans (not_lt.mp hs) one_pos.le

/-- The zipped absolute difference of nonnegative vectors is bounded by the sum
of their sums. -/
theorem sum_zipWith_abs_le (p : List ℚ) (hp : ∀ x ∈ p, 0 ≤ x) :
    ∀ (q : List ℚ), (∀ x ∈ q, 0 ≤ x) →
      (p.zipWith (fun a b => |a - b|) q).sum ≤ p.sum + q.sum := by
  induction p with
  | nil =>
    intro q hq
    simp
    exact List.sum_nonneg hq
  | cons a t ih =>
    intro q hq
    cases q with
    | nil =>
      simp
      exact add_nonneg (hp a (by simp)) (List.sum_nonneg fun x hx => hp x (by simp [hx]))
    | cons b u =>
      simp only [List.zipWith_cons_cons, List.sum_cons]
      have h1 : |a - b| ≤ a + b := by
        rw [abs_sub_le_iff]
        constructor
        · have := hq b (by simp)
          linarith
        · have := hp a (by simp)
          linarith
      have h2 := ih (fun x hx => hp x (by simp [hx])) u
        (fun x hx => hq x (by simp [hx]))
      calc |a - b| + (t.zipWith (fun a b => |a - b|) u).sum
          ≤ (a + b) + (t.sum + u.sum) := add_le_add h1 h2
        _ = a + t.sum + (b + u.sum) := by ring

/-- The zipped absolute difference has a nonnegative sum. -/
theorem sum_zipWith_abs_nonneg (p : List ℚ) :
    ∀ (q : List ℚ), 0 ≤ (p.zipWith (fun a b => |a - b|) q).sum := by
  induction p with
  | nil => intro q; simp
  | cons a t ih =>
    intro q
    cases q with
    | nil => simp
    | cons b u =>
      simp only [List.zipWith_cons_cons, List.sum_cons]
      exact add_nonneg (abs_nonneg _) (ih u)

/-- The TVD helper stays in `[0, 1]` on nonnegative inputs (the source normalises
each side whenever its sum is positive). -/
theorem tvd_range (p q : List ℚ) (hp : ∀ x ∈ p, 0 ≤ x) (hq : ∀ x ∈ q, 0 ≤ x) :
    0 ≤ total_variation_distance p q ∧ total_variation_distance p q ≤ 1 := by
  unfold total_variation_distance
  constructor
  · exact div_nonneg (sum_zipWith_abs_nonneg _ _) (by norm_num)
  · rw [div_le_one (by norm_num : (0:ℚ) < 2)]
    calc ((normalizeIfPos p).zipWith (fun a b => |a - b|) (normalizeIfPos q)).sum
        ≤ (normalizeIfPos p).sum + (normalizeIfPos q).sum :=
          sum_zipWith_abs_le _ (normalizeIfPos_nonneg p hp) _
            (normalizeIfPos_nonneg q hq)
      _ ≤ 1 + 1 := add_le_add (normalizeIfPos_sum_le p hp)
          (normalizeIfPos_sum_le q hq)
      _ = 2 := by norm_num

/-- Folding `max` from a lower-bounded seed stays bounded above by any common
bound. -/
theorem foldl_max_le (c : ℚ) : ∀ (t : List ℚ) (a : ℚ), a ≤ c →
    (∀ x ∈ t, x ≤ c) → t.foldl max a ≤ c := by
  intro t
  induction t with
  | nil => intro a ha _; simpa using ha
  | cons b u ih =>
    intro a ha ht
    simp only [List.foldl_cons]
    exact ih (max a b) (max_le ha (ht b (by simp)))
      fun x hx => ht x (by simp [hx])

/-- The seed bounds the fold from below. -/
theorem le_foldl_max : ∀ (t : List ℚ) (a : ℚ), a ≤ t.foldl max a := by
  intro t
  induction t with
  | nil => intro a; simp
  | cons b u ih =>
    intro a
    simp only [List.foldl_cons]
    exact le_trans (le_max_left a b) (ih (max a b))

/-- `listMax` of a list of unit-interval values is in the unit interval. -/
theorem listMax_range (l : List ℚ) (h : ∀ x ∈ l, 0 ≤ x ∧ x ≤ 1) :
    0 ≤ listMax l ∧ listMax l ≤ 1 := by
  cases l with
  | nil => simp [listMin, listMax]
  | cons a t =>
    unfold listMax
    constructor
    · exact le_trans (h a (by simp)).1 (le_foldl_max t a)
    · exact foldl_max_le 1 t a (h a (by simp)).2 fun x hx => (h x (by simp [hx])).2

/-- `listMean` of a list of unit-interval values is in the unit interval. -/
theorem listMean_range (l : List ℚ) (h : ∀ x ∈ l, 0 ≤ x ∧ x ≤ 1) :
    0 ≤ listMean l ∧ listMean l ≤ 1 := by
  unfold listMean
  by_cases hl : l.length = 0
  · simp [hl]
  · rw [if_neg hl]
    have hlen : 0 < (l.length : ℚ) := by
      have : 0 < l.length := Nat.pos_of_ne_zero hl
      exact_mod_cast this
    constructor
    · exact div_nonneg (List.sum_nonneg fun x hx => (h x hx).1) hlen.le
    · rw [div_le_one hlen]
      have := List.sum_le_card_nsmul l 1 fun x hx => (h x hx).2
      simpa using this

/-- Elements produced by a successful `mapM` over `Except` all satisfy any
property preserved by the mapped function. -/
theorem mapM_loop_ok {α β : Type} (f : α → Except PyErr β) (P : β → Prop)
    (hf : ∀ a v, f a = .ok v → P v) :
    ∀ (l : List α) (acc out : List β),
      List.mapM.loop f l acc = .ok out → (∀ v ∈ acc, P v) → ∀ v ∈ out, P v := by
  intro l
  induction l with
  | nil =>
    intro acc out h hacc v hv
    simp only [List.mapM.loop, Pure.pure, Except.pure, Except.ok.injEq] at h
    subst h
    exact hacc v (List.mem_reverse.mp hv)
  | cons a t ih =>
    intro acc out h hacc v hv
    simp only [List.mapM.loop, Bind.bind, Except.bind] at h
    cases hfa : f a with
    | error e => rw [hfa] at h; exact absurd h (by simp)
    | ok b =>
      rw [hfa] at h
      exact ih (b :: acc) out h
        (fun w hw => by
          rcases List.mem_cons.mp hw with hw | hw
          · exact hw ▸ hf a b hfa
          · exact hacc w hw) v hv

/-- Specialisation of `mapM_loop_ok` to a whole-list `mapM`. -/
theorem mapM_ok {α β : Type} (f : α → Except PyErr β) (P : β → Prop)
    (hf : ∀ a v, f a = .ok v → P v) (l : List α) (out : List β)
    (h : l.mapM f = .ok out) : ∀ v ∈ out, P v := by
  have := mapM_loop_ok f P hf l [] out
  rw [List.mapM] at h
  exact this h (by simp)

/-- Histogram probabilities are nonnegative. -/
theorem binnedProbs_nonneg (edges xs : List ℚ) :
    ∀ x ∈ binnedProbs edges xs, 0 ≤ x := by
  have hnn : ∀ x ∈ (histogramCounts edges xs).map (fun c : Nat => (c : ℚ)), 0 ≤ x := by
    intro x hx
    obtain ⟨c, -, h⟩ := List.mem_map.mp hx
    rw [← h]
    exact Nat.cast_nonneg c
  exact normalizeIfPos_nonneg _ hnn

/-- Reindexed categorical probabilities are nonnegative. -/
theorem catProbs_nonneg (cats subs : List Val) :
    ∀ x ∈ catProbs cats subs, 0 ≤ x := by
  intro x hx
  obtain ⟨c, _, rfl⟩ := List.mem_map.mp hx
  exact div_nonneg (Nat.cast_nonneg _) (Nat.cast_nonneg _)

/-- Values surviving a successful distance `mapM` give report aggregates inside
the unit interval. -/
theorem t_aggregates_range (tvals : List ℚ)
    (hall : ∀ v ∈ tvals, 0 ≤ v ∧ v ≤ 1) :
    0 ≤ listMax tvals ∧ listMax tvals ≤ 1 ∧
      0 ≤ listMean tvals ∧ listMean tvals ≤ 1 := by
  obtain ⟨h1, h2⟩ := listMax_range tvals hall
  obtain ⟨h3, h4⟩ := listMean_range tvals hall
  exact ⟨h1, h2, h3, h4⟩

/-- C7: whenever `t_closeness` with `t_method = "tvd"` returns a report —
categorical or numeric sensitive attribute, any bin count — both `t_max` and
`t_avg` lie in the closed interval `[0, 1]`. -/
theorem C7_tvd_range (df : DataFrame) (qi_cols : List String)
    (sensitive_col : String) (numeric_bins : Nat) (binning_method : String)
    (rep : TClosenessReport)
    (h : t_closeness df qi_cols sensitive_col numeric_bins binning_method
      "tvd" = .ok rep) :
    0 ≤ rep.t_max ∧ rep.t_max ≤ 1 ∧ 0 ≤ rep.t_avg ∧ rep.t_avg ≤ 1 := by
  unfold t_closeness at h
  cases hc : getCol! df sensitive_col with
  | error e => rw [hc] at h; exact absurd h (by simp [Bind.bind, Except.bind])
  | ok svals =>
    rw [hc] at h
    simp only [Bind.bind, Except.bind] at h
    cases hr : requireCols df qi_cols with
    | error e => rw [hr] at h; exact absurd h (by simp)
    | ok idxs =>
      rw [hr] at h
      by_cases hnum : isNumericCol svals
      · by_cases hx : (numericVals svals).isEmpty
        · have hset : tSetup svals numeric_bins binning_method "tvd" =
              (none, some fun _ => .ok 0) := by
            rw [tSetup]; simp [hnum, hx]
          rw [hset] at h
          simp only at h
          cases hm : (groupVals (keysOf df idxs) svals).mapM
              (fun _ => (Except.ok 0 : Except PyErr ℚ)) with
          | error e => rw [hm] at h; exact absurd h (by simp)
          | ok tvals =>
            rw [hm] at h
            simp only [Except.ok.injEq] at h
            subst h
            exact t_aggregates_range tvals (mapM_ok _ _
              (fun g v hv => by
                simp only [Except.ok.injEq] at hv
                subst hv
                norm_num) _ _ hm)
        · by_cases hbm : binning_method = "quantile"
          · have hset : tSetup svals numeric_bins binning_method "tvd" =
                (some (quantileBins (numericVals svals) numeric_bins),
                  none) := by
              rw [tSetup]; simp [hnum, hx, hbm]
            rw [hset] at h
            exact absurd h (by simp)
          · have hset : tSetup svals numeric_bins binning_method "tvd" =
                (some (fdEdges (numericVals svals) numeric_bins),
                  some (fdDist (fdEdges (numericVals svals) numeric_bins)
                    (numericVals svals) "tvd")) := by
              rw [tSetup]; simp [hnum, hx, hbm]
            rw [hset] at h
            simp only at h
            cases hm : (groupVals (keysOf df idxs) svals).mapM
                (fdDist (fdEdges (numericVals svals) numeric_bins)
                  (numericVals svals) "tvd") with
            | error e => rw [hm] at h; exact absurd h (by simp)
            | ok tvals =>
              rw [hm] at h
              simp only [Except.ok.injEq] at h
              subst h
              refine t_aggregates_range tvals (mapM_ok _ _ ?_ _ _ hm)
              intro g v hv
              unfold fdDist at hv
              rw [if_neg (by decide)] at hv
              simp only [Except.ok.injEq] at hv
              subst hv
              exact tvd_range _ _ (binnedProbs_nonneg _ _) (binnedProbs_nonneg _ _)
      · have hset : tSetup svals numeric_bins binning_method "tvd" =
            (none, some (catDist ((nonNull svals).dedup)
              (catProbs ((nonNull svals).dedup) svals))) := by
          rw [tSetup]; simp [hnum]
        rw [hset] at h
        simp only at h
        cases hm : (groupVals (keysOf df idxs) svals).mapM
            (catDist ((nonNull svals).dedup)
              (catProbs ((nonNull svals).dedup) svals)) with
        | error e => rw [hm] at h; exact absurd h (by simp)
        | ok tvals =>
          rw [hm] at h
          simp only [Except.ok.injEq] at h
          subst h
          refine t_aggregates_range tvals (mapM_ok _ _ ?_ _ _ hm)
          intro g v hv
          unfold catDist at hv
          simp only [Except.ok.injEq] at hv
          subst hv
          exact tvd_range _ _ (catProbs_nonneg _ _) (catProbs_nonneg _ _)

/-- Witness for C7: a categorical two-row run returning `t_max = t_avg = 0`. -/
theorem C7_tvd_range_witness :
    0 ≤ (TClosenessReport.mk 0 0 none "tvd").t_max ∧
    (TClosenessReport.mk 0 0 none "tvd").t_max ≤ 1 ∧
    0 ≤ (TClosenessReport.mk 0 0 none "tvd").t_avg ∧
    (TClosenessReport.mk 0 0 none "tvd").t_avg ≤ 1 :=
  C7_tvd_range
    (DataFrame.mk ["q", "s"]
      [[Val.str "a", Val.str "x"], [Val.str "b", Val.str "x"]])
    ["q"] "s" 10 "fd" (TClosenessReport.mk 0 0 none "tvd")
    (by
      have hset : tSetup [Val.str "x", Val.str "x"] 10 "fd" "tvd" =
          (none, some (catDist [Val.str "x"] [1])) := by
        rw [tSetup]
        norm_num +decide [isNumericCol, nonNull, catProbs, cnt,
          List.countP_cons, List.countP_nil]
      have hdist1 : catDist [Val.str "x"] [1] [Val.str "x"] = .ok 0 := by
        norm_num +decide [catDist, catProbs, nonNull, cnt, List.countP_cons,
          List.countP_nil, total_variation_distance, normalizeIfPos,
          List.zipWith]
      simp +decide [t_closeness, getCol!, getColumn, colIndex, headerIndex,
        requireCols, firstMissing, keysOf, rowKey, cell, groupVals, hset,
        hdist1, listMax, listMean, Bind.bind, Except.bind, List.mapM,
        List.mapM.loop, Pure.pure, Except.pure])

/-! ### C9: the validator never mutates the bound dataset -/

/-- A validator instance: `self.df`, the dataset bound at construction
(`AnonymisationValidator.__init__`). -/
structure AnonymisationValidator where
  df : DataFrame

/-- One method invocation on a validator instance, with its arguments. -/
inductive Call where
  | kAnonymityCall (qi_cols : List String)
  | lDiversityCall (qi_cols : List String) (sensitive_col : String)
      (method : String)
  | tClosenessCall (qi_cols : List String) (sensitive_col : String)
      (numeric_bins : Nat) (binning_method : String) (t_method : String)
  | suggestCall (qi_cols : List String) (sensitive_col : String)
  | fullReportCall (qi_cols : List String) (sensitive_col : String)
      (k_required : Option Nat) (l_required : Option ℚ) (l_method : String)
      (t_required : Option ℚ) (reid_required : Option ℚ) (numeric_bins : Nat)
      (external_df : Option DataFrame) (dominance_threshold : ℚ)
      (rare_threshold : Nat) (binning_method : String) (t_method : String)

/-- Observable result of one call. -/
inductive CallResult where
  | kRes (r : Except PyErr KAnonymityReport)
  | lRes (r : Except PyErr LDiversityReport)
  | tRes (r : Except PyErr TClosenessReport)
  | sRes (r : Except PyErr SuggestedThresholds)
  | fRes (r : Except PyErr FullReport)

/-- State-passing embedding of one method call: every method only reads
`self.df` and returns a report.  The source never assigns `self.df` and uses
only non-mutating pandas operations (`groupby`, `value_counts`, `merge`,
`crosstab`, an explicit `copy` of the auxiliary frame), so the post-state
carries the dataset the method was entered with. -/
noncomputable def runCall (v : AnonymisationValidator) (c : Call) :
    AnonymisationValidator × CallResult :=
  match c with
  | .kAnonymityCall qi => (v, .kRes (k_anonymity v.df qi))
  | .lDiversityCall qi s m => (v, .lRes (l_diversity v.df qi s m))
  | .tClosenessCall qi s nb bm tm =>
      (v, .tRes (t_closeness v.df qi s nb bm tm))
  | .suggestCall qi s => (v, .sRes (suggest_thresholds v.df qi s))
  | .fullReportCall qi s kr lr lm tr rr nb ext dom rare bm tm =>
      (v, .fRes (full_report v.df qi s kr lr lm tr rr nb ext dom rare bm tm))

/-- Run a sequence of calls, threading the validator state. -/
noncomputable def runCalls (v : AnonymisationValidator) (cs : List Call) :
    AnonymisationValidator :=
  cs.foldl (fun st c => (runCall st c).1) v

/-- C9: after every sequence of analyzer calls (`k_anonymity`, `l_diversity`,
`t_closeness`, `suggest_thresholds`, `full_report`), the bound dataset equals
its value at construction, row for row and cell for cell. -/
theorem C9_dataset_never_mutated (v : AnonymisationValidator)
    (cs : List Call) : (runCalls v cs).df = v.df := by
  induction cs generalizing v with
  | nil => rfl
  | cons c t ih =>
    have hstep : (runCall v c).1 = v := by cases c <;> rfl
    calc (runCalls v (c :: t)).df = (runCalls (runCall v c).1 t).df := rfl
      _ = (runCall v c).1.df := ih _
      _ = v.df := by rw [hstep]

/-! ### C6: entropy effective diversity never exceeds the distinct count -/

/-- Sum of a mapped list as a sum over `Fin`. -/
theorem sum_map_get {α β : Type} [AddCommMonoid β] (l : List α) (f : α → β) :
    (l.map f).sum = ∑ i : Fin l.length, f (l.get i) := by
  rw [← List.ofFn_get_eq_map l f, List.sum_ofFn]

/-- Casting a rational list sum to the reals. -/
theorem cast_sum_rat (l : List ℚ) :
    (l.map fun a : ℚ => (a : ℝ)).sum = ((l.sum : ℚ) : ℝ) := by
  induction l with
  | nil => simp
  | cons a t ih =>
    simp only [List.map_cons, List.sum_cons, ih]
    push_cast
    ring

/-- Casting a natural list sum to the rationals. -/
theorem cast_sum_nat (l : List Nat) :
    (l.map fun n : Nat => (n : ℚ)).sum = ((l.sum : ℕ) : ℚ) := by
  induction l with
  | nil => simp
  | cons a t ih =>
    simp only [List.map_cons, List.sum_cons, ih]
    push_cast
    ring

/-- Weighted AM-GM: two to the Shannon entropy of a positive probability vector
is at most the number of its entries. -/
theorem two_rpow_entropy_le_card (p : List ℚ) (hpos : ∀ x ∈ p, 0 < x)
    (hsum : p.sum = 1) :
    (2 : ℝ) ^ (-((p.map fun a : ℚ => (a : ℝ) * Real.logb 2 (a : ℝ)).sum)) ≤
      (p.length : ℝ) := by
  have hwpos : ∀ i : Fin p.length, (0 : ℝ) < ((p.get i : ℚ) : ℝ) := fun i => by
    exact_mod_cast hpos _ (p.get_mem i.1 i.2)
  have hw1 : ∑ i : Fin p.length, ((p.get i : ℚ) : ℝ) = 1 := by
    have h1 := sum_map_get p (fun a : ℚ => (a : ℝ))
    rw [cast_sum_rat, hsum] at h1
    simpa using h1.symm
  have hgm := Real.geom_mean_le_arith_mean_weighted Finset.univ
      (fun i : Fin p.length => ((p.get i : ℚ) : ℝ))
      (fun i : Fin p.length => (((p.get i : ℚ) : ℝ))⁻¹)
      (fun i _ => (hwpos i).le) hw1
      (fun i _ => inv_nonneg.mpr (hwpos i).le)
  have hR : ∑ i : Fin p.length,
      ((p.get i : ℚ) : ℝ) * (((p.get i : ℚ) : ℝ))⁻¹ = (p.length : ℝ) := by
    rw [Finset.sum_congr rfl fun i _ => mul_inv_cancel₀ (ne_of_gt (hwpos i))]
    simp
  have hL : ∏ i : Fin p.length,
      (((p.get i : ℚ) : ℝ))⁻¹ ^ ((p.get i : ℚ) : ℝ) =
      (2 : ℝ) ^ (-((p.map fun a : ℚ => (a : ℝ) * Real.logb 2 (a : ℝ)).sum)) := by
    have hcomp : ∀ i : Fin p.length,
        (((p.get i : ℚ) : ℝ))⁻¹ ^ ((p.get i : ℚ) : ℝ) =
        Real.exp (-(((p.get i : ℚ) : ℝ) * Real.log ((p.get i : ℚ) : ℝ))) := by
      intro i
      rw [Real.rpow_def_of_pos (inv_pos.mpr (hwpos i)), Real.log_inv]
      ring_nf
    rw [Finset.prod_congr rfl fun i _ => hcomp i, ← Real.exp_sum]
    rw [Real.rpow_def_of_pos (by norm_num : (0 : ℝ) < 2)]
    congr 1
    rw [sum_map_get p (fun a : ℚ => (a : ℝ) * Real.logb 2 (a : ℝ))]
    have hlog2 : Real.log 2 ≠ 0 := ne_of_gt (Real.log_pos (by norm_num))
    simp only [Real.logb]
    rw [mul_neg, Finset.mul_sum, ← Finset.sum_neg_distrib]
    apply Finset.sum_congr rfl
    intro i _
    field_simp
  calc (2 : ℝ) ^ (-((p.map fun a : ℚ => (a : ℝ) * Real.logb 2 (a : ℝ)).sum))
      = ∏ i : Fin p.length,
          (((p.get i : ℚ) : ℝ))⁻¹ ^ ((p.get i : ℚ) : ℝ) := hL.symm
    _ ≤ ∑ i : Fin p.length,
          ((p.get i : ℚ) : ℝ) * (((p.get i : ℚ) : ℝ))⁻¹ := hgm
    _ = (p.length : ℝ) := hR

/-- Weighted AM-GM with uniform weights: two to the mean of exponents is at most
the mean of any pointwise upper bounds of the exponentials. -/
theorem rpow_two_mean_le_mean {m : Nat} (hm : 0 < m) (E K : Fin m → ℝ)
    (hEK : ∀ i, (2 : ℝ) ^ E i ≤ K i) :
    (2 : ℝ) ^ ((∑ i, E i) / (m : ℝ)) ≤ (∑ i, K i) / (m : ℝ) := by
  have hm' : (0 : ℝ) < (m : ℝ) := by exact_mod_cast hm
  have hw1 : ∑ _i : Fin m, (1 / (m : ℝ)) = 1 := by
    rw [Finset.sum_const, Finset.card_univ, Fintype.card_fin]
    field_simp
  have hgm := Real.geom_mean_le_arith_mean_weighted Finset.univ
      (fun _ : Fin m => 1 / (m : ℝ)) (fun i => (2 : ℝ) ^ E i)
      (fun i _ => by positivity) hw1
      (fun i _ => Real.rpow_nonneg (by norm_num) _)
  have hL : ∏ i : Fin m, ((2 : ℝ) ^ E i) ^ (1 / (m : ℝ)) =
      (2 : ℝ) ^ ((∑ i, E i) / (m : ℝ)) := by
    rw [Finset.prod_congr rfl
      fun i _ => (Real.rpow_mul (by norm_num : (0:ℝ) ≤ 2) (E i) (1 / (m:ℝ))).symm]
    rw [← Real.rpow_sum_of_pos (by norm_num : (0 : ℝ) < 2)]
    congr 1
    rw [← Finset.sum_mul]
    ring
  have hR : ∑ i : Fin m, (1 / (m : ℝ)) * ((2 : ℝ) ^ E i) ≤
      ∑ i : Fin m, (1 / (m : ℝ)) * K i :=
    Finset.sum_le_sum fun i _ =>
      mul_le_mul_of_nonneg_left (hEK i) (by positivity)
  have hR2 : ∑ i : Fin m, (1 / (m : ℝ)) * K i = (∑ i, K i) / (m : ℝ) := by
    rw [← Finset.mul_sum]
    ring
  calc (2 : ℝ) ^ ((∑ i, E i) / (m : ℝ))
      = ∏ i : Fin m, ((2 : ℝ) ^ E i) ^ (1 / (m : ℝ)) := hL.symm
    _ ≤ ∑ i : Fin m, (1 / (m : ℝ)) * ((2 : ℝ) ^ E i) := hgm
    _ ≤ ∑ i : Fin m, (1 / (m : ℝ)) * K i := hR
    _ = (∑ i, K i) / (m : ℝ) := hR2

/-- Per class: two to the Shannon entropy of the class distribution is at most
the number of distinct sensitive values of the class. -/
theorem entropy_rpow_le_distinct (g : List Val) (hg : g ≠ []) :
    (2 : ℝ) ^ safe_entropy (classProbs g) ≤ (g.dedup.length : ℝ) := by
  have hlen0 : 0 < g.length := List.length_pos.mpr hg
  have hpos : ∀ x ∈ classProbs g, 0 < x := by
    intro x hx
    obtain ⟨v, hv, hvx⟩ := List.mem_map.mp hx
    rw [← hvx]
    apply div_pos
    · have hvg : v ∈ g := List.mem_dedup.mp hv
      have hcnt : 0 < cnt v g := by
        unfold cnt
        rw [List.countP_pos_iff]
        exact ⟨v, hvg, by simp⟩
      exact_mod_cast hcnt
    · exact_mod_cast hlen0
  have hsum : (classProbs g).sum = 1 := by
    have hmap : classProbs g =
        ((g.dedup.map fun v => cnt v g).map fun n : Nat => (n : ℚ)).map
          fun a => a / (g.length : ℚ) := by
      unfold classProbs
      rw [List.map_map, List.map_map]
      rfl
    rw [hmap, sum_map_div, cast_sum_nat, sum_count_dedup]
    exact div_self (by exact_mod_cast Nat.pos_iff_ne_zero.mp hlen0)
  have hnil : classProbs g ≠ [] := by
    unfold classProbs
    simp only [ne_eq, List.map_eq_nil_iff, List.dedup_eq_nil]
    exact hg
  have hfilter : (classProbs g).filter (fun a => decide (0 < a)) =
      classProbs g :=
    List.filter_eq_self.mpr fun a ha => by simpa using hpos a ha
  have hsafe : safe_entropy (classProbs g) =
      -(((classProbs g).map fun a : ℚ =>
        (a : ℝ) * Real.logb 2 (a : ℝ)).sum) := by
    simp only [safe_entropy, hfilter]
    rw [if_neg (by simpa [List.isEmpty_iff] using hnil)]
  rw [hsafe]
  have := two_rpow_entropy_le_card (classProbs g) hpos hsum
  rwa [show (classProbs g).length = g.dedup.length by
    unfold classProbs; rw [List.length_map]] at this

/-- The fold of `min` is below its seed. -/
theorem foldl_min_le_init {α : Type} [LinearOrder α] :
    ∀ (t : List α) (a : α), t.foldl min a ≤ a := by
  intro t
  induction t with
  | nil => intro a; simp
  | cons b u ih =>
    intro a
    simp only [List.foldl_cons]
    exact le_trans (ih (min a b)) (min_le_left a b)

/-- The fold of `min` is below every element of the list. -/
theorem foldl_min_le_mem {α : Type} [LinearOrder α] :
    ∀ (t : List α) (a x : α), x ∈ t → t.foldl min a ≤ x := by
  intro t
  induction t with
  | nil => intro a x hx; cases hx
  | cons b u ih =>
    intro a x hx
    simp only [List.foldl_cons]
    rcases List.mem_cons.mp hx with rfl | hx
    · exact le_trans (foldl_min_le_init u (min a x)) (min_le_right a x)
    · exact ih (min a b) x hx

/-- `listMin` bounds every element from below. -/
theorem listMin_le_mem {α : Type} [LinearOrder α] [Zero α] (l : List α) :
    ∀ x ∈ l, listMin l ≤ x := by
  cases l with
  | nil => intro x hx; cases hx
  | cons a t =>
    intro x hx
    unfold listMin
    rcases List.mem_cons.mp hx with rfl | hx
    · exact foldl_min_le_init t x
    · exact foldl_min_le_mem t a x hx

/-- The fold of `min` is the seed or an element. -/
theorem foldl_min_choice {α : Type} [LinearOrder α] :
    ∀ (t : List α) (a : α), t.foldl min a = a ∨ t.foldl min a ∈ t := by
  intro t
  induction t with
  | nil => intro a; left; rfl
  | cons b u ih =>
    intro a
    simp only [List.foldl_cons]
    rcases ih (min a b) with h | h
    · rcases min_choice a b with hab | hab
      · left; rw [h, hab]
      · right; rw [h, hab]; exact List.mem_cons_self b u
    · right; exact List.mem_cons_of_mem b h

/-- `listMin` of a nonempty list is attained by one of its elements. -/
theorem listMin_mem {α : Type} [LinearOrder α] [Zero α] (l : List α)
    (hl : l ≠ []) : listMin l ∈ l := by
  cases l with
  | nil => exact absurd rfl hl
  | cons a t =>
    show t.foldl min a ∈ a :: t
    rcases foldl_min_choice t a with h | h
    · rw [h]; exact List.mem_cons_self a t
    · exact List.mem_cons_of_mem a h

/-- Each equivalence class carries at least one sensitive value when the value
column is at least as long as the key column. -/
theorem groupVals_ne_nil (keys : List (List Val)) (vals : List Val)
    (hlen : keys.length ≤ vals.length) :
    ∀ g ∈ groupVals keys vals, g ≠ [] := by
  intro g hg
  unfold groupVals at hg
  obtain ⟨k, hk, hkg⟩ := List.mem_map.mp hg
  rw [← hkg]
  have hk' : k ∈ keys := List.mem_dedup.mp hk
  have hkz : k ∈ (keys.zip vals).map Prod.fst := by
    rw [List.map_fst_zip keys vals hlen]
    exact hk'
  obtain ⟨pr, hpr, hprk⟩ := List.mem_map.mp hkz
  intro hnil
  have hmemf : pr ∈ (keys.zip vals).filter fun p => decide (p.1 = k) :=
    List.mem_filter.mpr ⟨hpr, by simp [hprk]⟩
  rw [List.map_eq_nil_iff.mp hnil] at hmemf
  cases hmemf

/-- Length of a successfully fetched column equals the row count. -/
theorem getCol_length (df : DataFrame) (c : String) (svals : List Val)
    (h : getCol! df c = .ok svals) : svals.length = df.rows.length := by
  unfold getCol! at h
  cases hg : getColumn df c with
  | none => rw [hg] at h; exact absurd h (by simp)
  | some v =>
    rw [hg] at h
    simp only [Except.ok.injEq] at h
    subst h
    unfold getColumn at hg
    obtain ⟨i, -, hv⟩ := Option.map_eq_some'.mp hg
    rw [← hv]
    exact List.length_map _ _

/-- C6: on a nonempty dataset, the entropy method's effective diversities
`2 ** entropy_min` and `2 ** entropy_avg` are bounded by the distinct-count
`l_min` and `l_avg` reported for the same grouping. -/
theorem C6_entropy_effective_le_distinct (df : DataFrame)
    (qi_cols : List String) (sensitive_col : String) (rep : LDiversityReport)
    (h : l_diversity df qi_cols sensitive_col "entropy" = .ok rep)
    (hne : df.rows ≠ []) :
    rep.entropy_effective_min.getD 0 ≤ (rep.l_min : ℝ) ∧
    rep.entropy_effective_avg.getD 0 ≤ (rep.l_avg : ℝ) := by
  unfold l_diversity at h
  cases hr : requireCols df qi_cols with
  | error e => rw [hr] at h; exact absurd h (by simp [Bind.bind, Except.bind])
  | ok idxs =>
    rw [hr] at h
    cases hc : getCol! df sensitive_col with
    | error e => rw [hc] at h; exact absurd h (by simp [Bind.bind, Except.bind])
    | ok svals =>
      rw [hc] at h
      simp only [Bind.bind, Except.bind] at h
      rw [if_neg (by decide)] at h
      simp only [if_true, Except.ok.injEq] at h
      subst h
      simp only [Option.getD_some]
      have hklen : (keysOf df idxs).length ≤ svals.length := by
        rw [getCol_length df sensitive_col svals hc]
        exact le_of_eq (List.length_map _ _)
      have hgmem : ∀ g ∈ groupVals (keysOf df idxs) svals, g ≠ [] :=
        groupVals_ne_nil _ _ hklen
      have hgne : groupVals (keysOf df idxs) svals ≠ [] := by
        unfold groupVals keysOf
        simp only [ne_eq, List.map_eq_nil_iff, List.dedup_eq_nil]
        exact hne
      constructor
      · obtain ⟨g0, hg0, hg0min⟩ := List.mem_map.mp
          (listMin_mem ((groupVals (keysOf df idxs) svals).map
            fun g => ((g.dedup.length : ℕ) : ℚ)) (by simpa using hgne))
        calc (2 : ℝ) ^ listMin ((groupVals (keysOf df idxs) svals).map
              fun g => safe_entropy (classProbs g))
            ≤ (2 : ℝ) ^ safe_entropy (classProbs g0) :=
              Real.rpow_le_rpow_of_exponent_le (by norm_num)
                (listMin_le_mem _ _ (List.mem_map_of_mem _ hg0))
          _ ≤ (g0.dedup.length : ℝ) := entropy_rpow_le_distinct g0 (hgmem g0 hg0)
          _ = _ := by rw [← hg0min]; push_cast; ring
      · have hm : 0 < (groupVals (keysOf df idxs) svals).length :=
          List.length_pos.mpr hgne
        have hEK : ∀ i : Fin (groupVals (keysOf df idxs) svals).length,
            (2 : ℝ) ^ safe_entropy (classProbs
              ((groupVals (keysOf df idxs) svals).get i)) ≤
              ((((groupVals (keysOf df idxs) svals).get i).dedup.length : ℕ) :
                ℝ) :=
          fun i => entropy_rpow_le_distinct _
            (hgmem _ ((groupVals (keysOf df idxs) svals).get_mem i.1 i.2))
        have hmean := rpow_two_mean_le_mean hm
          (fun i => safe_entropy (classProbs
            ((groupVals (keysOf df idxs) svals).get i)))
          (fun i => ((((groupVals (keysOf df idxs) svals).get i).dedup.length :
            ℕ) : ℝ)) hEK
        have hE : listMean ((groupVals (keysOf df idxs) svals).map
            fun g => safe_entropy (classProbs g)) =
            (∑ i, safe_entropy (classProbs
              ((groupVals (keysOf df idxs) svals).get i))) /
              (((groupVals (keysOf df idxs) svals).length : ℕ) : ℝ) := by
          unfold listMean
          rw [if_neg (by rw [List.length_map]; omega)]
          rw [sum_map_get, List.length_map]
        have hK : ((listMean ((groupVals (keysOf df idxs) svals).map
            fun g => ((g.dedup.length : ℕ) : ℚ)) : ℚ) : ℝ) =
            (∑ i, ((((groupVals (keysOf df idxs) svals).get i).dedup.length :
              ℕ) : ℝ)) /
              (((groupVals (keysOf df idxs) svals).length : ℕ) : ℝ) := by
          unfold listMean
          rw [if_neg (by rw [List.length_map]; omega)]
          push_cast
          rw [List.length_map]
          congr 1
          rw [List.map_map, sum_map_get]
          apply Finset.sum_congr rfl
          intro i _
          simp
        rw [hE, hK]
        exact hmean

/-- Witness for C6: a two-row, one-class dataset with a constant sensitive
value: effective diversity 1 against distinct count 1. -/
theorem C6_entropy_effective_le_distinct_witness :
    (LDiversityReport.mk "entropy" 1 1 (some 0) (some 0) (some 1)
        (some 1)).entropy_effective_min.getD 0 ≤
      ((LDiversityReport.mk "entropy" 1 1 (some 0) (some 0) (some 1)
        (some 1)).l_min : ℝ) ∧
    (LDiversityReport.mk "entropy" 1 1 (some 0) (some 0) (some 1)
        (some 1)).entropy_effective_avg.getD 0 ≤
      ((LDiversityReport.mk "entropy" 1 1 (some 0) (some 0) (some 1)
        (some 1)).l_avg : ℝ) :=
  C6_entropy_effective_le_distinct
    (DataFrame.mk ["q", "s"]
      [[Val.str "a", Val.str "x"], [Val.str "a", Val.str "x"]])
    ["q"] "s"
    (LDiversityReport.mk "entropy" 1 1 (some 0) (some 0) (some 1) (some 1))
    (by
      have hsafe : safe_entropy (classProbs [Val.str "x", Val.str "x"]) = 0 := by
        norm_num +decide [safe_entropy, classProbs, cnt, List.countP_cons,
          List.countP_nil, Real.logb_one]
      norm_num +decide [l_diversity, requireCols, firstMissing, colIndex,
        headerIndex, getCol!, getColumn, keysOf, rowKey, cell, groupVals,
        listMin, listMean, Bind.bind, Except.bind, hsafe, Real.rpow_zero,
        LDiversityReport.mk.injEq])
    (by decide)

end Priv
